import Mathlib

/-!
Verification of the Hue bulb replacement tool (`src/script/app.js`).

The development shallowly embeds the algorithmic core of the tool:

* a JSON value model `JVal` for the heterogeneous configuration trees the
  bridge returns;
* `addLightReference` (app.js lines 397-438), the generic recursive
  reference scanner used by the automation migrator;
* `itemAddressExists` / the rule condition-action update loop
  (app.js lines 446-450 and 666-757);
* the V1-to-V2 identifier map construction (app.js lines 306-321);
* the group, scene and rename steps of the replacement orchestration
  (app.js lines 515-535, 539-573, 576-597, 825-887);
* the behavior-instance update loop (app.js lines 775-822), including the
  behaviour when one of the V2 ids is `undefined` (the guards at lines
  480 and 486 are commented out in the source).

JavaScript `undefined` string parameters are modelled as `Option String`
(`none` = `undefined`); a JSON object key holding `undefined` is modelled as
an absent key, which agrees both with strict equality (`undefined ===
undefined` is true, and a missing property reads as `undefined`) and with
`JSON.stringify`, which omits `undefined`-valued keys.
-/

namespace HueTool

/-- A JSON value, as produced by `JSON.parse` on the bridge's responses:
null, booleans, numbers, strings, arrays and objects.  Object member lists
have pairwise-distinct keys when they come from `JSON.parse`; the embedding
does not need that assumption. -/
inductive JVal where
  | null : JVal
  | bool : Bool → JVal
  | num : Int → JVal
  | str : String → JVal
  | arr : List JVal → JVal
  | obj : List (String × JVal) → JVal

mutual

/-- Structural equality test for `JVal` (used to make equality decidable;
the automatic deriving does not handle the nested recursion). -/
def JVal.beq : JVal → JVal → Bool
  | .null, .null => true
  | .bool a, .bool b => a == b
  | .num a, .num b => a == b
  | .str a, .str b => a == b
  | .arr a, .arr b => JVal.beqList a b
  | .obj a, .obj b => JVal.beqFields a b
  | _, _ => false

/-- Elementwise `JVal.beq` on arrays. -/
def JVal.beqList : List JVal → List JVal → Bool
  | [], [] => true
  | x :: xs, y :: ys => JVal.beq x y && JVal.beqList xs ys
  | _, _ => false

/-- Memberwise `JVal.beq` on object member lists. -/
def JVal.beqFields : List (String × JVal) → List (String × JVal) → Bool
  | [], [] => true
  | (k, v) :: xs, (k', v') :: ys => k == k' && JVal.beq v v' && JVal.beqFields xs ys
  | _, _ => false

end

/-- Strong induction on the size of a `JVal`. -/
theorem JVal.strongInduction {motive : JVal → Prop}
    (ih : ∀ v, (∀ w, sizeOf w < sizeOf v → motive w) → motive v) (v : JVal) : motive v := by
  have H : ∀ n, ∀ v : JVal, sizeOf v < n → motive v := by
    intro n
    induction n with
    | zero => intro v hv; omega
    | succ n ihn => intro v hv; exact ih v (fun w hw => ihn w (by omega))
  exact H (sizeOf v + 1) v (by omega)

/-- An array element is smaller than the array. -/
theorem JVal.sizeOf_lt_arr {x : JVal} {l : List JVal} (h : x ∈ l) :
    sizeOf x < sizeOf (JVal.arr l) := by
  have := List.sizeOf_lt_of_mem h
  simp only [JVal.arr.sizeOf_spec]
  omega

/-- An object member's value is smaller than the object. -/
theorem JVal.sizeOf_lt_obj {kv : String × JVal} {fs : List (String × JVal)} (h : kv ∈ fs) :
    sizeOf kv.2 < sizeOf (JVal.obj fs) := by
  have h1 := List.sizeOf_lt_of_mem h
  have h2 : sizeOf kv.2 < sizeOf kv := by
    obtain ⟨k, v⟩ := kv
    simp only [Prod.mk.sizeOf_spec]
    omega
  simp only [JVal.obj.sizeOf_spec]
  omega

/-- Structural induction on `JVal` with membership hypotheses for the
elements of arrays and objects. -/
theorem JVal.memInduction {motive : JVal → Prop}
    (hnull : motive .null) (hbool : ∀ b, motive (.bool b)) (hnum : ∀ i, motive (.num i))
    (hstr : ∀ s, motive (.str s))
    (harr : ∀ l, (∀ x ∈ l, motive x) → motive (.arr l))
    (hobj : ∀ fs, (∀ kv ∈ fs, motive kv.2) → motive (.obj fs)) (v : JVal) : motive v := by
  induction v using JVal.strongInduction with
  | ih v ih =>
    match v with
    | .null => exact hnull
    | .bool b => exact hbool b
    | .num i => exact hnum i
    | .str s => exact hstr s
    | .arr l => exact harr l (fun x hx => ih x (JVal.sizeOf_lt_arr hx))
    | .obj fs => exact hobj fs (fun kv hkv => ih kv.2 (JVal.sizeOf_lt_obj hkv))

/-- `JVal.beqList` is elementwise `JVal.beq`. -/
theorem JVal.beqList_eq (a b : List JVal)
    (h : ∀ x ∈ a, ∀ y, (JVal.beq x y = true) ↔ x = y) :
    (JVal.beqList a b = true) ↔ a = b := by
  induction a generalizing b with
  | nil => cases b <;> simp [JVal.beqList]
  | cons x xs ihx =>
    cases b with
    | nil => simp [JVal.beqList]
    | cons y ys =>
      simp only [JVal.beqList, Bool.and_eq_true, List.cons.injEq]
      rw [h x (by simp) y, ihx ys (fun z hz => h z (by simp [hz]))]

/-- `JVal.beqFields` is memberwise equality. -/
theorem JVal.beqFields_eq (a b : List (String × JVal))
    (h : ∀ kv ∈ a, ∀ w, (JVal.beq kv.2 w = true) ↔ kv.2 = w) :
    (JVal.beqFields a b = true) ↔ a = b := by
  induction a generalizing b with
  | nil => cases b <;> simp [JVal.beqFields]
  | cons x xs ihx =>
    obtain ⟨k, v⟩ := x
    cases b with
    | nil => simp [JVal.beqFields]
    | cons y ys =>
      obtain ⟨k', v'⟩ := y
      simp only [JVal.beqFields, Bool.and_eq_true, List.cons.injEq, Prod.mk.injEq,
        beq_iff_eq]
      rw [h (k, v) (by simp) v', ihx ys (fun z hz => h z (by simp [hz]))]
      try tauto

/-- `JVal.beq` decides equality. -/
theorem JVal.beq_iff : ∀ a b : JVal, (JVal.beq a b = true) ↔ a = b := by
  intro a
  induction a using JVal.memInduction with
  | hnull => intro b; cases b <;> simp [JVal.beq]
  | hbool x => intro b; cases b <;> simp [JVal.beq]
  | hnum x => intro b; cases b <;> simp [JVal.beq]
  | hstr x => intro b; cases b <;> simp [JVal.beq]
  | harr l hl =>
    intro b
    cases b <;> simp only [JVal.beq] <;> try simp
    rw [JVal.beqList_eq _ _ hl]
    try simp
  | hobj fs hfs =>
    intro b
    cases b <;> simp only [JVal.beq] <;> try simp
    rw [JVal.beqFields_eq _ _ hfs]
    try simp

instance : DecidableEq JVal := fun a b => decidable_of_iff (JVal.beq a b = true) (JVal.beq_iff a b)

/-- Property read `o[k]` on an object member list: the first binding of `k`,
`none` when the key is absent (JavaScript `undefined`). -/
def jfield : List (String × JVal) → String → Option JVal
  | [], _ => none
  | (k', v) :: fs, k => if k' = k then some v else jfield fs k

/-- JavaScript `typeof v === 'object'` (true for objects, arrays and `null`);
the source recurses into exactly these values. -/
def isObjLike : JVal → Bool
  | .null => true
  | .arr _ => true
  | .obj _ => true
  | _ => false

/-- The test `item.rid === lightRid` from app.js line 404/406, where
`lightRid` is a string or `undefined` (`none`): a missing `rid` key reads as
`undefined`, and strict equality holds only string-to-string or
`undefined`-to-`undefined`. -/
def ridMatches (rid : Option String) (fs : List (String × JVal)) : Bool :=
  match jfield fs "rid", rid with
  | some (.str s), some r => s == r
  | none, none => true
  | _, _ => false

/-- The test `item.rtype === 'light'` from app.js line 404/406. -/
def rtypeIsLight (fs : List (String × JVal)) : Bool :=
  match jfield fs "rtype" with
  | some (.str t) => t == "light"
  | _ => false

/-- The full match test of app.js line 404 (and the `some` callback at 406):
`typeof item === 'object' && item !== null && item.rid === lightRid &&
item.rtype === 'light'`.  Arrays pass the `typeof` test but have no `rtype`
member, so only objects can match. -/
def isLightRef (rid : Option String) : JVal → Bool
  | .obj fs => ridMatches rid fs && rtypeIsLight fs
  | _ => false

/-- The object literal `{rid: newLightRid, rtype: 'light'}` pushed at
app.js line 409.  When `newLightRid` is `undefined` the `rid` key is
modelled as absent (see the header comment). -/
def newRefObj (rid : Option String) : JVal :=
  match rid with
  | some r => .obj [("rid", .str r), ("rtype", .str "light")]
  | none => .obj [("rtype", .str "light")]

mutual

/-- `addLightReference(obj, oldLightRid, newLightRid)` from app.js lines
397-438: recursively walks a value; in every array, for every element
matching the old reference, appends the new reference to that same array
unless an element matching the new reference is already present; recurses
into non-matching object-like elements and into every object-like property
value.  Returns the updated value and the `modified` flag. -/
def addLightReference (oldRid newRid : Option String) : JVal → JVal × Bool
  | .arr items => let r := scanArray oldRid newRid [] items false false
                  (.arr r.1, r.2)
  | .obj fs => let r := scanFields oldRid newRid fs
               (.obj r.1, r.2)
  | v => (v, false)

/-- The object branch of `addLightReference` (app.js lines 423-435):
recurse into each property value that is object-like. -/
def scanFields (oldRid newRid : Option String) :
    List (String × JVal) → List (String × JVal) × Bool
  | [] => ([], false)
  | (k, v) :: fs =>
      let p := if isObjLike v then addLightReference oldRid newRid v else (v, false)
      let q := scanFields oldRid newRid fs
      ((k, p.1) :: q.1, p.2 || q.2)

/-- The array branch of `addLightReference` (app.js lines 399-422).  The
JavaScript loop `for (let i = 0; i < obj.length; i++)` runs over the array
while it is mutated in place; the only mutation of the array itself is
`obj.push({rid: newLightRid, rtype: 'light'})`, which can fire at most once
per array because afterwards the `obj.some(...)` membership test is true.
The embedding therefore carries the processed portion `done`, the flag
`pushed` recording whether the push has happened, and the accumulated
`modified` flag.  The `obj.some` test at line 406 reads the whole current
array, i.e. `done ++ item :: rest` (plus the pushed element when `pushed`).
When the original elements are exhausted the loop still visits the pushed
element: it matches the old reference only when the two references
coincide, in which case the membership test (it is its own witness) takes
the skip branch; otherwise it is recursed into, and since its property
values are strings (or absent) that recursion modifies nothing.  Either
way the visit leaves the array and the flag unchanged, which is what the
`[]` case returns. -/
def scanArray (oldRid newRid : Option String) (done : List JVal) :
    List JVal → Bool → Bool → List JVal × Bool
  | [], pushed, modified =>
      if pushed then (done ++ [newRefObj newRid], modified) else (done, modified)
  | item :: rest, pushed, modified =>
      if isLightRef oldRid item then
        if pushed || (done ++ item :: rest).any (isLightRef newRid) then
          scanArray oldRid newRid (done ++ [item]) rest pushed modified
        else
          scanArray oldRid newRid (done ++ [item]) rest true true
      else if isObjLike item then
        let p := addLightReference oldRid newRid item
        scanArray oldRid newRid (done ++ [p.1]) rest pushed (p.2 || modified)
      else
        scanArray oldRid newRid (done ++ [item]) rest pushed modified

end

/-- One step of the array loop on a single element, as carried out by the
source: a matching element is left alone (the push happens at the end of the
array), an object-like non-matching element is recursed into, everything
else is untouched. -/
def scanStep (oldRid newRid : Option String) (x : JVal) : JVal :=
  if isLightRef oldRid x then x
  else if isObjLike x then (addLightReference oldRid newRid x).1 else x

/-- Whether recursing into an array element reports a modification. -/
def nestedMod (oldRid newRid : Option String) (x : JVal) : Bool :=
  if isLightRef oldRid x then false
  else if isObjLike x then (addLightReference oldRid newRid x).2 else false

/-- One step of the object loop on a single member. -/
def fieldStep (oldRid newRid : Option String) (kv : String × JVal) : String × JVal :=
  (kv.1, if isObjLike kv.2 then (addLightReference oldRid newRid kv.2).1 else kv.2)

/-- Whether recursing into an object member reports a modification. -/
def fieldMod (oldRid newRid : Option String) (kv : String × JVal) : Bool :=
  if isObjLike kv.2 then (addLightReference oldRid newRid kv.2).2 else false

/-- `scanFields` maps `fieldStep` over the members and ors the
modification flags. -/
theorem scanFields_eq (oldRid newRid : Option String) (fs : List (String × JVal)) :
    scanFields oldRid newRid fs = (fs.map (fieldStep oldRid newRid), fs.any (fieldMod oldRid newRid)) := by
  induction fs with
  | nil => rfl
  | cons kv fs ih =>
    obtain ⟨k, v⟩ := kv
    simp only [scanFields, ih, List.map_cons, List.any_cons, fieldStep, fieldMod]
    by_cases h : isObjLike v = true <;> simp [h]

/-- Reading a key through `fieldStep`-mapped members transforms the value
pointwise. -/
theorem jfield_map_fieldStep (oldRid newRid : Option String) (fs : List (String × JVal)) (k : String) :
    jfield (fs.map (fieldStep oldRid newRid)) k =
      (jfield fs k).map (fun v => if isObjLike v then (addLightReference oldRid newRid v).1 else v) := by
  induction fs with
  | nil => rfl
  | cons kv fs ih =>
    obtain ⟨k', v⟩ := kv
    simp only [List.map_cons, fieldStep, jfield]
    by_cases h : k' = k <;> simp [h, ih]

/-- The scan never changes the head constructor of a value. -/
theorem addLightReference_shape (oldRid newRid : Option String) :
    (∀ l, ∃ l', (addLightReference oldRid newRid (.arr l)).1 = .arr l') ∧
    (∀ fs, (addLightReference oldRid newRid (.obj fs)).1 = .obj (fs.map (fieldStep oldRid newRid))) ∧
    (∀ b, (addLightReference oldRid newRid (.bool b)).1 = .bool b) ∧
    (∀ i, (addLightReference oldRid newRid (.num i)).1 = .num i) ∧
    (∀ s, (addLightReference oldRid newRid (.str s)).1 = .str s) ∧
    (addLightReference oldRid newRid .null).1 = .null := by
  refine ⟨fun l => ⟨(scanArray oldRid newRid [] l false false).1, rfl⟩, fun fs => ?_, fun b => rfl, fun i => rfl, fun s => rfl, rfl⟩
  simp [addLightReference, scanFields_eq]

/-- Scanning a value does not change whether it passes the light-reference
test, for any reference: the scan only ever appends elements to arrays
nested strictly inside, never touching a string-valued `rid` or `rtype`
member. -/
theorem isLightRef_addLightReference (r oldRid newRid : Option String) (v : JVal) :
    isLightRef r ((addLightReference oldRid newRid v).1) = isLightRef r v := by
  match v with
  | .null => rfl
  | .bool b => rfl
  | .num i => rfl
  | .str s => rfl
  | .arr l =>
    obtain ⟨l', hl⟩ := (addLightReference_shape oldRid newRid).1 l
    rw [hl]; rfl
  | .obj fs =>
    rw [(addLightReference_shape oldRid newRid).2.1 fs]
    simp only [isLightRef]
    have hrid : ridMatches r (fs.map (fieldStep oldRid newRid)) = ridMatches r fs := by
      simp only [ridMatches, jfield_map_fieldStep]
      match h : jfield fs "rid" with
      | none => rfl
      | some w =>
        match w with
        | .null => rfl
        | .bool b => rfl
        | .num i => rfl
        | .str s => rfl
        | .arr l =>
          obtain ⟨l', hl⟩ := (addLightReference_shape oldRid newRid).1 l
          simp only [Option.map_some', isObjLike, if_pos rfl, hl]
          cases r <;> rfl
        | .obj g =>
          rw [Option.map_some']
          simp only [isObjLike, if_pos rfl, (addLightReference_shape oldRid newRid).2.1 g]
          cases r <;> rfl
    have hrt : rtypeIsLight (fs.map (fieldStep oldRid newRid)) = rtypeIsLight fs := by
      simp only [rtypeIsLight, jfield_map_fieldStep]
      match h : jfield fs "rtype" with
      | none => rfl
      | some w =>
        match w with
        | .null => rfl
        | .bool b => rfl
        | .num i => rfl
        | .str s => rfl
        | .arr l =>
          obtain ⟨l', hl⟩ := (addLightReference_shape oldRid newRid).1 l
          simp only [Option.map_some', isObjLike, if_pos rfl, hl]
          rfl
        | .obj g =>
          rw [Option.map_some']
          simp only [isObjLike, if_pos rfl, (addLightReference_shape oldRid newRid).2.1 g]
          rfl
    rw [hrid, hrt]

/-- `scanStep` preserves the light-reference test as well. -/
theorem isLightRef_scanStep (r oldRid newRid : Option String) (x : JVal) :
    isLightRef r (scanStep oldRid newRid x) = isLightRef r x := by
  unfold scanStep
  by_cases h1 : isLightRef oldRid x = true
  · simp [h1]
  · by_cases h2 : isObjLike x = true <;>
      simp [h1, h2, isLightRef_addLightReference]

/-- Characterization of the array loop of `addLightReference`: the result is
the elementwise `scanStep` image of the remaining elements, with the new
reference appended exactly when some element matches the old reference and
no element of the current array matches the new one; the returned flag
records a push or a nested modification. -/
theorem scanArray_eq (oldRid newRid : Option String) :
    ∀ (rest done : List JVal) (pushed modified : Bool),
    scanArray oldRid newRid done rest pushed modified =
      (done ++ rest.map (scanStep oldRid newRid) ++
         (if pushed || (rest.any (isLightRef oldRid) &&
             !((done ++ rest).any (isLightRef newRid))) then [newRefObj newRid] else []),
       (modified || rest.any (nestedMod oldRid newRid)) ||
         (!pushed && (rest.any (isLightRef oldRid) &&
           !((done ++ rest).any (isLightRef newRid))))) := by
  intro rest
  induction rest with
  | nil =>
    intro done pushed modified
    cases pushed <;> simp [scanArray]
  | cons x xs ih =>
    intro done pushed modified
    by_cases ho : isLightRef oldRid x = true
    · have hstep : scanStep oldRid newRid x = x := by simp [scanStep, ho]
      have hmod : nestedMod oldRid newRid x = false := by simp [nestedMod, ho]
      by_cases hc : (pushed || (done ++ x :: xs).any (isLightRef newRid)) = true
      · simp only [scanArray]
        rw [if_pos ho, if_pos hc, ih]
        cases hp : pushed with
        | true => simp [hstep, hmod, ho]
        | false =>
          have hAt : (done ++ x :: xs).any (isLightRef newRid) = true := by
            cases h2 : (done ++ x :: xs).any (isLightRef newRid)
            · rw [hp, h2] at hc; simp at hc
            · rfl
          have hAt2 : ((done ++ [x]) ++ xs).any (isLightRef newRid) = true := by
            rw [List.append_assoc, List.singleton_append]; exact hAt
          simp [hstep, hmod, ho, hAt, hAt2]
      · have hp : pushed = false := by
          cases h2 : pushed
          · rfl
          · rw [h2] at hc; simp at hc
        have hAf : (done ++ x :: xs).any (isLightRef newRid) = false := by
          cases h2 : (done ++ x :: xs).any (isLightRef newRid)
          · rfl
          · rw [hp, h2] at hc; simp at hc
        have hAf2 : ((done ++ [x]) ++ xs).any (isLightRef newRid) = false := by
          rw [List.append_assoc, List.singleton_append]; exact hAf
        simp only [scanArray]
        rw [if_pos ho, if_neg hc, ih]
        simp [hstep, hmod, ho, hAf, hAf2, hp]
    · have ho2 : isLightRef oldRid x = false := Bool.eq_false_iff.mpr ho
      by_cases hb : isObjLike x = true
      · have hstep : scanStep oldRid newRid x = (addLightReference oldRid newRid x).1 := by
          simp [scanStep, ho, hb]
        have hmod : nestedMod oldRid newRid x = (addLightReference oldRid newRid x).2 := by
          simp [nestedMod, ho, hb]
        have hN : isLightRef newRid (addLightReference oldRid newRid x).1 = isLightRef newRid x :=
          isLightRef_addLightReference newRid oldRid newRid x
        simp only [scanArray]
        rw [if_neg ho, if_pos hb, ih]
        simp only [Prod.mk.injEq]
        constructor
        · simp [hstep, hN, ho2]
        · simp only [List.any_append, List.any_cons, List.any_nil, List.map_cons, hmod, ho2, hN]
          cases (addLightReference oldRid newRid x).2 <;> cases modified <;> cases pushed <;>
            cases h1 : xs.any (nestedMod oldRid newRid) <;>
            cases h2 : xs.any (isLightRef oldRid) <;>
            cases h3 : done.any (isLightRef newRid) <;>
            cases h4 : isLightRef newRid x <;>
            cases h5 : xs.any (isLightRef newRid) <;> simp
      · have hstep : scanStep oldRid newRid x = x := by simp [scanStep, ho, hb]
        have hmod : nestedMod oldRid newRid x = false := by simp [nestedMod, ho, hb]
        simp only [scanArray]
        rw [if_neg ho, if_neg hb, ih]
        simp [hstep, hmod, ho2]

mutual

/-- Modelled from the spec, claim C1 as stated (spec section 4.2): at every
sequence of the tree, if some element matches the old reference and no
element matches the new reference, the new reference is appended exactly
once; every element (matching or not) is itself scanned recursively, since
the claim quantifies over every sequence in the tree. -/
def claimScan (o n : String) : JVal → JVal
  | .arr l => if l.any (isLightRef (some o)) && !(l.any (isLightRef (some n))) then
                .arr (claimScanList o n l ++ [newRefObj (some n)])
              else .arr (claimScanList o n l)
  | .obj fs => .obj (claimScanFields o n fs)
  | v => v

/-- Elementwise `claimScan`. -/
def claimScanList (o n : String) : List JVal → List JVal
  | [] => []
  | x :: xs => claimScan o n x :: claimScanList o n xs

/-- Memberwise `claimScan`. -/
def claimScanFields (o n : String) : List (String × JVal) → List (String × JVal)
  | [] => []
  | (k, v) :: fs => (k, claimScan o n v) :: claimScanFields o n fs

end

mutual

/-- Modelled from the spec, amended to match the source: like `claimScan`,
but an array element that itself matches the old reference is left entirely
unchanged — the source checks the match before deciding whether to recurse
(app.js line 404 versus 416), so sequences nested inside a matching element
are never visited. Object member values are always descended into. -/
def refScanSpec (o n : String) : JVal → JVal
  | .arr l => if l.any (isLightRef (some o)) && !(l.any (isLightRef (some n))) then
                .arr (refScanSpecList o n l ++ [newRefObj (some n)])
              else .arr (refScanSpecList o n l)
  | .obj fs => .obj (refScanSpecFields o n fs)
  | v => v

/-- Elementwise amended scan: matching elements are kept verbatim. -/
def refScanSpecList (o n : String) : List JVal → List JVal
  | [] => []
  | x :: xs => (if isLightRef (some o) x then x else refScanSpec o n x) :: refScanSpecList o n xs

/-- Memberwise amended scan. -/
def refScanSpecFields (o n : String) : List (String × JVal) → List (String × JVal)
  | [] => []
  | (k, v) :: fs => (k, refScanSpec o n v) :: refScanSpecFields o n fs

end

/-- The amended spec scan is the identity on values that are not
object-like. -/
theorem refScanSpec_scalar (o n : String) (v : JVal) (h : isObjLike v = false) :
    refScanSpec o n v = v := by
  cases v <;> first | rfl | (exact absurd h (by simp [isObjLike]))

/-- A mapped list equals the original iff the function fixes every
element. -/
theorem listMapSelf {α : Type} (f : α → α) : ∀ l : List α, (l.map f = l ↔ ∀ x ∈ l, f x = x) := by
  intro l
  induction l with
  | nil => simp
  | cons x xs ih => simp [ih]

/-- Decomposition of a positive `nestedMod`. -/
theorem nestedMod_true_elim {oldRid newRid : Option String} {x : JVal}
    (h : nestedMod oldRid newRid x = true) :
    isLightRef oldRid x = false ∧ isObjLike x = true ∧ (addLightReference oldRid newRid x).2 = true := by
  unfold nestedMod at h
  by_cases h1 : isLightRef oldRid x = true
  · rw [if_pos h1] at h; exact absurd h (by simp)
  · rw [if_neg h1] at h
    by_cases h2 : isObjLike x = true
    · rw [if_pos h2] at h
      exact ⟨Bool.eq_false_iff.mpr h1, h2, h⟩
    · rw [if_neg h2] at h; exact absurd h (by simp)

/-- Decomposition of a positive `fieldMod`. -/
theorem fieldMod_true_elim {oldRid newRid : Option String} {kv : String × JVal}
    (h : fieldMod oldRid newRid kv = true) :
    isObjLike kv.2 = true ∧ (addLightReference oldRid newRid kv.2).2 = true := by
  unfold fieldMod at h
  by_cases h2 : isObjLike kv.2 = true
  · rw [if_pos h2] at h; exact ⟨h2, h⟩
  · rw [if_neg h2] at h; exact absurd h (by simp)

/-- `scanStep` agrees with the amended spec's element treatment once the
recursive calls do. -/
theorem scanStep_map_spec (o n : String) (l : List JVal)
    (h : ∀ x ∈ l, (addLightReference (some o) (some n) x).1 = refScanSpec o n x) :
    l.map (scanStep (some o) (some n)) = refScanSpecList o n l := by
  induction l with
  | nil => rfl
  | cons x xs ih =>
    simp only [List.map_cons, refScanSpecList]
    refine congrArg₂ _ ?_ (ih (fun y hy => h y (by simp [hy])))
    by_cases hox : isLightRef (some o) x = true
    · simp [scanStep, hox]
    · by_cases hbx : isObjLike x = true
      · rw [if_neg hox]
        simp only [scanStep, hox, if_false, hbx, if_true, Bool.false_eq_true]
        exact h x (by simp)
      · rw [if_neg hox, refScanSpec_scalar o n x (Bool.eq_false_iff.mpr hbx)]
        simp [scanStep, hox, hbx]

/-- `fieldStep` agrees with the amended spec's member treatment once the
recursive calls do. -/
theorem fieldStep_map_spec (o n : String) (fs : List (String × JVal))
    (h : ∀ kv ∈ fs, (addLightReference (some o) (some n) kv.2).1 = refScanSpec o n kv.2) :
    fs.map (fieldStep (some o) (some n)) = refScanSpecFields o n fs := by
  induction fs with
  | nil => rfl
  | cons kv fs ih =>
    obtain ⟨k, v⟩ := kv
    simp only [List.map_cons, refScanSpecFields, fieldStep]
    refine congrArg₂ _ ?_ (ih (fun y hy => h y (by simp [hy])))
    by_cases hbx : isObjLike v = true
    · simp only [hbx, if_true]
      exact congrArg _ (h (k, v) (by simp))
    · rw [refScanSpec_scalar o n v (Bool.eq_false_iff.mpr hbx)]
      simp [hbx]

/-- Main correspondence between the source scanner and the amended spec
scan: the returned value is the amended spec scan of the input, and the
returned flag is true exactly when the value changed. -/
theorem addLightReference_spec (o n : String) (v : JVal) :
    (addLightReference (some o) (some n) v).1 = refScanSpec o n v ∧
    ((addLightReference (some o) (some n) v).2 = true ↔
      (addLightReference (some o) (some n) v).1 ≠ v) := by
  induction v using JVal.memInduction with
  | hnull => exact ⟨rfl, by simp [addLightReference]⟩
  | hbool b => exact ⟨rfl, by simp [addLightReference]⟩
  | hnum i => exact ⟨rfl, by simp [addLightReference]⟩
  | hstr t => exact ⟨rfl, by simp [addLightReference]⟩
  | harr l hIH =>
    have hunf : addLightReference (some o) (some n) (.arr l) =
        (.arr (l.map (scanStep (some o) (some n)) ++
          (if l.any (isLightRef (some o)) && !(l.any (isLightRef (some n))) then
            [newRefObj (some n)] else [])),
         l.any (nestedMod (some o) (some n)) ||
           (l.any (isLightRef (some o)) && !(l.any (isLightRef (some n))))) := by
      simp only [addLightReference, scanArray_eq]
      simp
    have hmap := scanStep_map_spec o n l (fun x hx => (hIH x hx).1)
    constructor
    · rw [hunf]
      simp only [refScanSpec]
      by_cases hC : (l.any (isLightRef (some o)) && !(l.any (isLightRef (some n)))) = true
      · rw [if_pos hC, if_pos hC, hmap]
      · rw [if_neg hC, if_neg hC, hmap, List.append_nil]
    · rw [hunf]
      simp only
      by_cases hC : (l.any (isLightRef (some o)) && !(l.any (isLightRef (some n)))) = true
      · rw [hC]
        simp only [Bool.or_true, true_iff, ne_eq, JVal.arr.injEq]
        intro heq
        have hlen := congrArg List.length heq
        simp at hlen
      · have hC2 : (l.any (isLightRef (some o)) && !(l.any (isLightRef (some n)))) = false :=
          Bool.eq_false_iff.mpr hC
        rw [hC2]
        simp only [Bool.or_false, if_false, List.append_nil, ne_eq, JVal.arr.injEq,
          Bool.false_eq_true]
        rw [List.any_eq_true]
        constructor
        · rintro ⟨x, hx, hmx⟩ heq
          obtain ⟨hox, hbx, hfx⟩ := nestedMod_true_elim hmx
          have hfix := (listMapSelf _ l).mp heq x hx
          have hne := (hIH x hx).2.mp hfx
          apply hne
          have : scanStep (some o) (some n) x = (addLightReference (some o) (some n) x).1 := by
            simp [scanStep, hox, hbx]
          rw [← this, hfix]
        · intro hneq
          by_contra hno
          push_neg at hno
          apply hneq
          rw [listMapSelf]
          intro x hx
          by_cases hox : isLightRef (some o) x = true
          · simp [scanStep, hox]
          · by_cases hbx : isObjLike x = true
            · have hmod0 : (addLightReference (some o) (some n) x).2 = false := by
                cases hm : (addLightReference (some o) (some n) x).2
                · rfl
                · exact absurd hm (by
                    intro hm2
                    exact (hno x hx) (by simp [nestedMod, hox, hbx, hm2]))
              have := (hIH x hx).2
              rw [hmod0] at this
              simp only [Bool.false_eq_true, false_iff, ne_eq, not_not] at this
              simp [scanStep, hox, hbx, this]
            · simp [scanStep, hox, hbx]
  | hobj fs hIH =>
    have hunf : addLightReference (some o) (some n) (.obj fs) =
        (.obj (fs.map (fieldStep (some o) (some n))), fs.any (fieldMod (some o) (some n))) := by
      simp [addLightReference, scanFields_eq]
    have hmap := fieldStep_map_spec o n fs (fun kv hkv => (hIH kv hkv).1)
    constructor
    · rw [hunf]
      simp only [refScanSpec]
      rw [hmap]
    · rw [hunf]
      simp only [ne_eq, JVal.obj.injEq]
      rw [List.any_eq_true]
      constructor
      · rintro ⟨kv, hkv, hmkv⟩ heq
        obtain ⟨hbkv, hfkv⟩ := fieldMod_true_elim hmkv
        have hfix := (listMapSelf _ fs).mp heq kv hkv
        have hne := (hIH kv hkv).2.mp hfkv
        apply hne
        have : (fieldStep (some o) (some n) kv).2 = (addLightReference (some o) (some n) kv.2).1 := by
          simp [fieldStep, hbkv]
        rw [← this, hfix]
      · intro hneq
        by_contra hno
        push_neg at hno
        apply hneq
        rw [listMapSelf]
        intro kv hkv
        by_cases hbkv : isObjLike kv.2 = true
        · have hmod0 : (addLightReference (some o) (some n) kv.2).2 = false := by
            cases hm : (addLightReference (some o) (some n) kv.2).2
            · rfl
            · exact absurd hm (by
                intro hm2
                exact (hno kv hkv) (by simp [fieldMod, hbkv, hm2]))
          have := (hIH kv hkv).2
          rw [hmod0] at this
          simp only [Bool.false_eq_true, false_iff, ne_eq, not_not] at this
          simp [fieldStep, hbkv, this]
        · simp [fieldStep, hbkv]

/-- The element treatment of the amended spec scan as a function. -/
def specStep (o n : String) (x : JVal) : JVal :=
  if isLightRef (some o) x then x else refScanSpec o n x

/-- `refScanSpecList` is `specStep` mapped over the elements. -/
theorem refScanSpecList_eq_map (o n : String) (l : List JVal) :
    refScanSpecList o n l = l.map (specStep o n) := by
  induction l with
  | nil => rfl
  | cons x xs ih => simp only [refScanSpecList, List.map_cons, ih, specStep]

/-- `refScanSpecFields` maps the scan over the member values. -/
theorem refScanSpecFields_eq_map (o n : String) (fs : List (String × JVal)) :
    refScanSpecFields o n fs = fs.map (fun kv => (kv.1, refScanSpec o n kv.2)) := by
  induction fs with
  | nil => rfl
  | cons kv fs ih =>
    obtain ⟨k, v⟩ := kv
    simp only [refScanSpecFields, List.map_cons, ih]

/-- Reading a key through value-mapped members transforms the value
pointwise. -/
theorem jfield_map_val (g : JVal → JVal) (fs : List (String × JVal)) (k : String) :
    jfield (fs.map (fun kv => (kv.1, g kv.2))) k = (jfield fs k).map g := by
  induction fs with
  | nil => rfl
  | cons kv fs ih =>
    obtain ⟨k', v⟩ := kv
    simp only [List.map_cons, jfield]
    by_cases h : k' = k <;> simp [h, ih]

/-- The amended spec scan never changes the head constructor. -/
theorem refScanSpec_shape (o n : String) :
    (∀ l, ∃ l', refScanSpec o n (.arr l) = .arr l') ∧
    (∀ fs, refScanSpec o n (.obj fs) = .obj (fs.map (fun kv => (kv.1, refScanSpec o n kv.2)))) := by
  constructor
  · intro l
    simp only [refScanSpec]
    by_cases hC : (l.any (isLightRef (some o)) && !(l.any (isLightRef (some n)))) = true
    · rw [if_pos hC]; exact ⟨_, rfl⟩
    · rw [if_neg hC]; exact ⟨_, rfl⟩
  · intro fs
    simp only [refScanSpec, refScanSpecFields_eq_map]

/-- The amended spec scan preserves the light-reference test, for any
reference. -/
theorem isLightRef_refScanSpec (r : Option String) (o n : String) (v : JVal) :
    isLightRef r (refScanSpec o n v) = isLightRef r v := by
  match v with
  | .null => rfl
  | .bool b => rfl
  | .num i => rfl
  | .str t => rfl
  | .arr l =>
    obtain ⟨l', hl⟩ := (refScanSpec_shape o n).1 l
    rw [hl]; rfl
  | .obj fs =>
    rw [(refScanSpec_shape o n).2 fs]
    simp only [isLightRef]
    have hrid : ridMatches r (fs.map (fun kv => (kv.1, refScanSpec o n kv.2))) = ridMatches r fs := by
      simp only [ridMatches, jfield_map_val]
      match h : jfield fs "rid" with
      | none => rfl
      | some w =>
        match w with
        | .null => rfl
        | .bool b => rfl
        | .num i => rfl
        | .str t => rfl
        | .arr l =>
          obtain ⟨l', hl⟩ := (refScanSpec_shape o n).1 l
          simp only [Option.map_some', hl]
        | .obj g =>
          simp only [Option.map_some', (refScanSpec_shape o n).2 g]
    have hrt : rtypeIsLight (fs.map (fun kv => (kv.1, refScanSpec o n kv.2))) = rtypeIsLight fs := by
      simp only [rtypeIsLight, jfield_map_val]
      match h : jfield fs "rtype" with
      | none => rfl
      | some w =>
        match w with
        | .null => rfl
        | .bool b => rfl
        | .num i => rfl
        | .str t => rfl
        | .arr l =>
          obtain ⟨l', hl⟩ := (refScanSpec_shape o n).1 l
          simp only [Option.map_some', hl]
        | .obj g =>
          simp only [Option.map_some', (refScanSpec_shape o n).2 g]
    rw [hrid, hrt]

/-- `specStep` preserves the light-reference test. -/
theorem isLightRef_specStep (r : Option String) (o n : String) (x : JVal) :
    isLightRef r (specStep o n x) = isLightRef r x := by
  unfold specStep
  by_cases h : isLightRef (some o) x = true
  · rw [if_pos h]
  · rw [if_neg h]; exact isLightRef_refScanSpec r o n x

/-- Scanning does not change which elements of a list match a reference. -/
theorem any_refScanSpecList (r : Option String) (o n : String) (l : List JVal) :
    (refScanSpecList o n l).any (isLightRef r) = l.any (isLightRef r) := by
  rw [refScanSpecList_eq_map, List.any_map]
  have hfun : (isLightRef r ∘ specStep o n) = isLightRef r :=
    funext (fun x => isLightRef_specStep r o n x)
  rw [hfun]

/-- The pushed reference object matches the new reference. -/
theorem isLightRef_newRefObj (n : String) : isLightRef (some n) (newRefObj (some n)) = true := by
  simp [isLightRef, newRefObj, ridMatches, rtypeIsLight, jfield]

/-- The pushed reference object is a fixed point of the element
treatment. -/
theorem specStep_newRefObj (o n : String) :
    specStep o n (newRefObj (some n)) = newRefObj (some n) := by
  by_cases h : isLightRef (some o) (newRefObj (some n)) = true
  · simp [specStep, h]
  · have h2 : refScanSpec o n (newRefObj (some n)) = newRefObj (some n) := by
      show refScanSpec o n (.obj [("rid", .str n), ("rtype", .str "light")]) = _
      rw [(refScanSpec_shape o n).2]
      rfl
    simp [specStep, h, h2]

/-- `refScanSpecList` distributes over append. -/
theorem refScanSpecList_append (o n : String) (a b : List JVal) :
    refScanSpecList o n (a ++ b) = refScanSpecList o n a ++ refScanSpecList o n b := by
  simp [refScanSpecList_eq_map]

/-- The amended spec scan is idempotent. -/
theorem refScanSpec_idem (o n : String) (v : JVal) :
    refScanSpec o n (refScanSpec o n v) = refScanSpec o n v := by
  induction v using JVal.memInduction with
  | hnull => rfl
  | hbool b => rfl
  | hnum i => rfl
  | hstr t => rfl
  | harr l hIH =>
    have hfix : ∀ x ∈ l, specStep o n (specStep o n x) = specStep o n x := by
      intro x hx
      by_cases hox : isLightRef (some o) x = true
      · simp [specStep, hox]
      · have h1 : specStep o n x = refScanSpec o n x := by simp [specStep, hox]
        rw [h1]
        unfold specStep
        rw [isLightRef_refScanSpec (some o) o n x, if_neg hox]
        exact hIH x hx
    have hLfix : refScanSpecList o n (refScanSpecList o n l) = refScanSpecList o n l := by
      rw [refScanSpecList_eq_map, refScanSpecList_eq_map, List.map_map]
      exact List.map_congr_left (fun x hx => hfix x hx)
    have hO := any_refScanSpecList (some (o : String)) o n l
    have hN := any_refScanSpecList (some (n : String)) o n l
    simp only [refScanSpec]
    by_cases hC : (l.any (isLightRef (some o)) && !(l.any (isLightRef (some n)))) = true
    · rw [if_pos hC]
      simp only [refScanSpec, List.any_append, List.any_cons, List.any_nil,
        any_refScanSpecList, isLightRef_newRefObj]
      have hcond : ((l.any (isLightRef (some o)) || (isLightRef (some o) (newRefObj (some n)) || false)) &&
          !(l.any (isLightRef (some n)) || (true || false))) = false := by
        simp
      rw [hcond, if_neg (by simp)]
      rw [refScanSpecList_append]
      rw [hLfix]
      simp only [refScanSpecList, specStep_newRefObj]
      have : (if isLightRef (some o) (newRefObj (some n)) = true then newRefObj (some n)
          else refScanSpec o n (newRefObj (some n))) = newRefObj (some n) := by
        have h2 := specStep_newRefObj o n
        unfold specStep at h2
        exact h2
      rw [this]
    · rw [if_neg hC]
      simp only [refScanSpec, any_refScanSpecList]
      rw [if_neg hC, hLfix]
  | hobj fs hIH =>
    rw [(refScanSpec_shape o n).2 fs, (refScanSpec_shape o n).2, List.map_map]
    refine congrArg _ (List.map_congr_left ?_)
    intro kv hkv
    simp only [Function.comp]
    exact congrArg _ (hIH kv hkv)

/-- A sequence whose only element matches the old reference "A" and itself
carries a nested sequence that also contains a matching element. -/
def nestedMatchTree : JVal :=
  .arr [.obj [("rid", .str "A"), ("rtype", .str "light"),
    ("children", .arr [.obj [("rid", .str "A"), ("rtype", .str "light")]])]]

/-- A small automation-configuration-shaped tree used to instantiate
general theorems. -/
def sampleConfigTree : JVal :=
  .obj [("where", .arr [.obj [("rid", .str "A"), ("rtype", .str "light")],
    .obj [("rid", .str "B"), ("rtype", .str "light")]]),
   ("name", .str "timer")]

/-- Claim C1 is false as stated: on `nestedMatchTree`, the source scanner
(`addLightReference`) appends the new reference only to the outer sequence
and leaves the nested sequence untouched, because a matching element is
never descended into (app.js line 404 takes precedence over the recursion
at line 416); the claimed contract (`claimScan`, which augments every
sequence of the tree that contains a matching element) also augments the
nested sequence, so the two results differ. -/
theorem reference_scanner_claim_cex :
    addLightReference (some "A") (some "C") nestedMatchTree =
      (.arr [.obj [("rid", .str "A"), ("rtype", .str "light"),
         ("children", .arr [.obj [("rid", .str "A"), ("rtype", .str "light")]])],
       .obj [("rid", .str "C"), ("rtype", .str "light")]], true) ∧
    claimScan "A" "C" nestedMatchTree =
      .arr [.obj [("rid", .str "A"), ("rtype", .str "light"),
         ("children", .arr [.obj [("rid", .str "A"), ("rtype", .str "light")],
           .obj [("rid", .str "C"), ("rtype", .str "light")]])],
       .obj [("rid", .str "C"), ("rtype", .str "light")]] ∧
    (addLightReference (some "A") (some "C") nestedMatchTree).1 ≠
      claimScan "A" "C" nestedMatchTree := by
  decide

/-- Claim C1, amended: for every tree and references, the scanner returns
exactly the amended spec scan `refScanSpec` — every sequence reachable
without passing through an element matching the old reference has the new
reference appended exactly once iff it contains a matching element and no
element matching the new reference, is left without an append otherwise,
and sequences nested inside matching elements are left entirely unchanged —
and the returned boolean is true iff the tree changed. -/
theorem reference_scanner_contract (o n : String) (t : JVal) :
    (addLightReference (some o) (some n) t).1 = refScanSpec o n t ∧
    ((addLightReference (some o) (some n) t).2 = true ↔ refScanSpec o n t ≠ t) := by
  have h := addLightReference_spec o n t
  refine ⟨h.1, ?_⟩
  rw [← h.1]
  exact h.2

/-- Claim C3: running the scanner twice with the same pair of distinct
references yields `modified = false` on the second call and leaves the tree
exactly as it was after the first call. -/
theorem scan_idempotent (o n : String) (hdist : o ≠ n) (t : JVal) :
    (addLightReference (some o) (some n) ((addLightReference (some o) (some n) t).1)).1 =
      (addLightReference (some o) (some n) t).1 ∧
    (addLightReference (some o) (some n) ((addLightReference (some o) (some n) t).1)).2 = false := by
  have h1 := addLightReference_spec o n t
  have h2 := addLightReference_spec o n ((addLightReference (some o) (some n) t).1)
  have hval : (addLightReference (some o) (some n) ((addLightReference (some o) (some n) t).1)).1 =
      (addLightReference (some o) (some n) t).1 := by
    rw [h2.1, h1.1, refScanSpec_idem]
  refine ⟨hval, ?_⟩
  cases hf : (addLightReference (some o) (some n) ((addLightReference (some o) (some n) t).1)).2
  · rfl
  · exact absurd hval (h2.2.mp hf)

/-- Witness for `scan_idempotent`: concrete distinct references on a
concrete tree. -/
theorem scan_idempotent_witness :
    ("A" : String) ≠ "C" ∧
    ((addLightReference (some "A") (some "C")
        ((addLightReference (some "A") (some "C") sampleConfigTree).1)).1 =
      (addLightReference (some "A") (some "C") sampleConfigTree).1 ∧
     (addLightReference (some "A") (some "C")
        ((addLightReference (some "A") (some "C") sampleConfigTree).1)).2 = false) :=
  ⟨by decide, scan_idempotent "A" "C" (by decide) sampleConfigTree⟩

/-- JavaScript `a.startsWith(p)` (app.js line 684/711), on the character
data; rule addresses are ASCII, where characters and UTF-16 code units
coincide. -/
def strStartsWith (s p : String) : Bool := p.data.isPrefixOf s.data

/-- JavaScript `a.substring(k)` (app.js line 687/714): drop the first `k`
characters. -/
def strDrop (s : String) (k : Nat) : String := String.mk (s.data.drop k)

/-- `item.address` read as a string: rule conditions and actions are
objects carrying an `address` string; anything else (a null item, a missing
or non-string address) reads as no address, which the source skips both in
the scan (`condition.address && ...`, falsy) and in `itemAddressExists`
(strict equality with a string fails). -/
def itemAddress : JVal → Option String
  | .obj fs => match jfield fs "address" with
               | some (.str a) => some a
               | _ => none
  | _ => none

/-- `itemAddressExists(itemsArray, newAddress)` from app.js lines 446-450:
whether some item of the array carries exactly this address. -/
def itemAddressExists (items : List JVal) (a : String) : Bool :=
  items.any (fun it => itemAddress it == some a)

/-- Key update on a member list: the JavaScript spread
`{...condition, address: newAddress}` keeps every other member and the key
order, overriding the value in place (appending when absent, which cannot
happen here since the item was selected by its address). -/
def setField : List (String × JVal) → String → JVal → List (String × JVal)
  | [], k, v => [(k, v)]
  | (k', w) :: fs, k, v => if k' = k then (k, v) :: fs else (k', w) :: setField fs k v

/-- `{...condition, address: newAddress}` from app.js lines 692-695 and
719-722. -/
def setAddress (item : JVal) (a : String) : JVal :=
  match item with
  | .obj fs => .obj (setField fs "address" (.str a))
  | v => v

/-- The address path of a light, `/lights/{id}/` (app.js lines 663-664). -/
def lightPath (id : String) : String := "/lights/" ++ id ++ "/"

/-- The `forEach` loops over a rule's conditions (app.js lines 680-704) and
actions (707-731): iterate over the original items, carrying the modified
list `acc` (initialized to a deep copy of the original) and the
`needsUpdate` flag; for an item whose address starts with the old light's
path, build the new address with the same suffix and append a copy of the
item with the new address unless an item with exactly the new address
exists in `origAll`, the rule's original item list. -/
def processRuleItemsAux (oldPre newPre : String) (origAll : List JVal) :
    List JVal → List JVal → Bool → List JVal × Bool
  | [], acc, needs => (acc, needs)
  | item :: rest, acc, needs =>
    match itemAddress item with
    | some a =>
      if strStartsWith a oldPre then
        let newAddr := newPre ++ strDrop a oldPre.length
        if itemAddressExists origAll newAddr then
          processRuleItemsAux oldPre newPre origAll rest acc needs
        else
          processRuleItemsAux oldPre newPre origAll rest (acc ++ [setAddress item newAddr]) true
      else processRuleItemsAux oldPre newPre origAll rest acc needs
    | none => processRuleItemsAux oldPre newPre origAll rest acc needs

/-- One rule item list's processing pass: modified list and needs-update
flag. -/
def processRuleItems (oldPre newPre : String) (orig : List JVal) : List JVal × Bool :=
  processRuleItemsAux oldPre newPre orig orig orig false

/-- Modelled from the spec, the per-item add rule of claim C2: an item with
an old-prefixed address contributes a copy with the new address exactly
when no item with that new address exists in the rule's original,
pre-modification list. -/
def claimRuleAdd (oldPre newPre : String) (orig : List JVal) (item : JVal) : Option JVal :=
  match itemAddress item with
  | some a =>
    if strStartsWith a oldPre && !(itemAddressExists orig (newPre ++ strDrop a oldPre.length)) then
      some (setAddress item (newPre ++ strDrop a oldPre.length))
    else none
  | none => none

/-- Whether an item carries an address starting with the given path. -/
def hasOldAddr (oldPre : String) (item : JVal) : Bool :=
  match itemAddress item with
  | some a => strStartsWith a oldPre
  | none => false

/-- A V1 rule as fetched: its condition and action arrays, either possibly
absent. -/
structure HueRule where
  conditions : Option (List JVal)
  actions : Option (List JVal)

/-- The body of the `PUT /rules/{id}` issued by the migration: only arrays
with content are included (app.js lines 736-741). -/
structure RulePayload where
  conditions : Option (List JVal)
  actions : Option (List JVal)
deriving DecidableEq

/-- The whole per-rule update decision of app.js lines 666-757: process
conditions and actions (a missing array is processed as empty, exactly as
the source skips the loop and keeps the `[]` initializer); if either pass
appended something, submit the payload holding each nonempty modified
array; otherwise (or if the payload would be empty) no `PUT` is issued,
which `none` models. -/
def ruleUpdate (oldId newId : String) (r : HueRule) : Option RulePayload :=
  let pc := processRuleItems (lightPath oldId) (lightPath newId) (r.conditions.getD [])
  let pa := processRuleItems (lightPath oldId) (lightPath newId) (r.actions.getD [])
  if pc.2 || pa.2 then
    let payload : RulePayload :=
      { conditions := if pc.1.isEmpty then none else some pc.1,
        actions := if pa.1.isEmpty then none else some pa.1 }
    if payload.conditions.isNone && payload.actions.isNone then none
    else some payload
  else none

/-- Characterization of the condition/action loop: the modified list is the
original followed by the items `claimRuleAdd` selects (checking against the
original list throughout), and the flag records whether anything was
appended. -/
theorem processRuleItemsAux_eq (oldPre newPre : String) (origAll : List JVal) :
    ∀ (rest acc : List JVal) (needs : Bool),
    processRuleItemsAux oldPre newPre origAll rest acc needs =
      (acc ++ rest.filterMap (claimRuleAdd oldPre newPre origAll),
       needs || !(rest.filterMap (claimRuleAdd oldPre newPre origAll)).isEmpty) := by
  intro rest
  induction rest with
  | nil => intro acc needs; simp [processRuleItemsAux]
  | cons item rest ih =>
    intro acc needs
    match ha : itemAddress item with
    | none =>
      simp only [processRuleItemsAux, ha]
      rw [ih]
      have hc : claimRuleAdd oldPre newPre origAll item = none := by
        simp [claimRuleAdd, ha]
      simp [List.filterMap_cons, hc]
    | some a =>
      by_cases hs : strStartsWith a oldPre = true
      · by_cases he : itemAddressExists origAll (newPre ++ strDrop a oldPre.length) = true
        · simp only [processRuleItemsAux, ha, hs, if_true, he]
          rw [ih]
          have hc : claimRuleAdd oldPre newPre origAll item = none := by
            simp [claimRuleAdd, ha, hs, he]
          simp [List.filterMap_cons, hc]
        · have he2 : itemAddressExists origAll (newPre ++ strDrop a oldPre.length) = false :=
            Bool.eq_false_iff.mpr he
          simp only [processRuleItemsAux, ha, hs, if_true, he2, Bool.false_eq_true, if_false]
          rw [ih]
          have hc : claimRuleAdd oldPre newPre origAll item =
              some (setAddress item (newPre ++ strDrop a oldPre.length)) := by
            simp [claimRuleAdd, ha, hs, he2]
          simp [List.filterMap_cons, hc]
      · have hs2 : strStartsWith a oldPre = false := Bool.eq_false_iff.mpr hs
        simp only [processRuleItemsAux, ha, hs2, Bool.false_eq_true, if_false]
        rw [ih]
        have hc : claimRuleAdd oldPre newPre origAll item = none := by
          simp [claimRuleAdd, ha, hs2]
        simp [List.filterMap_cons, hc]

/-- An item that does not carry an old-prefixed address contributes
nothing. -/
theorem claimRuleAdd_none_of_not_old (oldPre newPre : String) (orig : List JVal)
    (item : JVal) (h : hasOldAddr oldPre item = false) :
    claimRuleAdd oldPre newPre orig item = none := by
  cases ha : itemAddress item with
  | none => simp [claimRuleAdd, ha]
  | some a =>
    have h2 : strStartsWith a oldPre = false := by
      unfold hasOldAddr at h
      rw [ha] at h
      exact h
    simp [claimRuleAdd, ha, h2]

/-- Claim C2: the modified condition/action list is the original list
followed by, for each old-prefixed item in the original order, its copy
with the new address — added exactly when no item with that new address
exists in the rule's original (pre-modification) list, `claimRuleAdd`'s
test being against `orig` itself and not against the accumulating modified
list; and a rule none of whose conditions or actions carries an
old-prefixed address is left untouched (no update is issued). -/
theorem rule_dedup_checked_against_original :
    (∀ (oldPre newPre : String) (orig : List JVal),
      processRuleItems oldPre newPre orig =
        (orig ++ orig.filterMap (claimRuleAdd oldPre newPre orig),
         !(orig.filterMap (claimRuleAdd oldPre newPre orig)).isEmpty)) ∧
    (∀ (oldId newId : String) (r : HueRule),
      (r.conditions.getD [] ++ r.actions.getD []).any (hasOldAddr (lightPath oldId)) = false →
      ruleUpdate oldId newId r = none) := by
  constructor
  · intro oldPre newPre orig
    rw [processRuleItems, processRuleItemsAux_eq]
    simp
  · intro oldId newId r h
    rw [List.any_append] at h
    have h1 : ∀ item ∈ r.conditions.getD [], hasOldAddr (lightPath oldId) item = false := by
      intro item hi
      have := List.any_eq_false.mp (by
        cases h2 : (r.conditions.getD []).any (hasOldAddr (lightPath oldId))
        · rfl
        · rw [h2] at h; simp at h) item hi
      simpa using this
    have h2 : ∀ item ∈ r.actions.getD [], hasOldAddr (lightPath oldId) item = false := by
      intro item hi
      have := List.any_eq_false.mp (by
        cases h2 : (r.actions.getD []).any (hasOldAddr (lightPath oldId))
        · rfl
        · rw [h2] at h; simp at h) item hi
      simpa using this
    have hm1 : (r.conditions.getD []).filterMap
        (claimRuleAdd (lightPath oldId) (lightPath newId) (r.conditions.getD [])) = [] :=
      List.filterMap_eq_nil_iff.mpr
        (fun item hi => claimRuleAdd_none_of_not_old _ _ _ item (h1 item hi))
    have hm2 : (r.actions.getD []).filterMap
        (claimRuleAdd (lightPath oldId) (lightPath newId) (r.actions.getD [])) = [] :=
      List.filterMap_eq_nil_iff.mpr
        (fun item hi => claimRuleAdd_none_of_not_old _ _ _ item (h2 item hi))
    unfold ruleUpdate
    rw [processRuleItems, processRuleItemsAux_eq, processRuleItems, processRuleItemsAux_eq,
      hm1, hm2]
    simp

/-- A rule with one old-prefixed condition, used to instantiate the general
rule theorems. -/
def frameRule : HueRule :=
  { conditions := some [.obj [("address", .str "/lights/1/state/on"),
      ("operator", .str "eq"), ("value", .str "true")]],
    actions := none }

/-- The payload `ruleUpdate` produces for `frameRule`. -/
def framePayload : RulePayload :=
  { conditions := some [.obj [("address", .str "/lights/1/state/on"),
      ("operator", .str "eq"), ("value", .str "true")],
     .obj [("address", .str "/lights/2/state/on"),
      ("operator", .str "eq"), ("value", .str "true")]],
    actions := none }

/-- Witness for `rule_dedup_checked_against_original`: a rule with no
old-prefixed address is left untouched. -/
theorem rule_dedup_checked_against_original_witness :
    (((HueRule.mk (some [.obj [("address", .str "/sensors/2/state/buttonevent")]])
        none).conditions.getD [] ++
      (HueRule.mk (some [.obj [("address", .str "/sensors/2/state/buttonevent")]])
        none).actions.getD []).any (hasOldAddr (lightPath "1")) = false) ∧
    ruleUpdate "1" "2"
      (HueRule.mk (some [.obj [("address", .str "/sensors/2/state/buttonevent")]]) none) = none :=
  ⟨by decide,
   rule_dedup_checked_against_original.2 "1" "2"
     (HueRule.mk (some [.obj [("address", .str "/sensors/2/state/buttonevent")]]) none)
     (by decide)⟩

/-- Claim C10: every submitted conditions or actions array is the rule's
original array followed by the newly created items — every original item
is kept unchanged, in its original relative order, before all appended
items. -/
theorem rule_update_frame (oldId newId : String) (r : HueRule) (p : RulePayload)
    (h : ruleUpdate oldId newId r = some p) :
    (∀ l, p.conditions = some l →
      l = r.conditions.getD [] ++ (r.conditions.getD []).filterMap
            (claimRuleAdd (lightPath oldId) (lightPath newId) (r.conditions.getD []))) ∧
    (∀ l, p.actions = some l →
      l = r.actions.getD [] ++ (r.actions.getD []).filterMap
            (claimRuleAdd (lightPath oldId) (lightPath newId) (r.actions.getD []))) := by
  set A := r.conditions.getD [] with hA
  set B := r.actions.getD [] with hB
  set fmA := A.filterMap (claimRuleAdd (lightPath oldId) (lightPath newId) A) with hfmA
  set fmB := B.filterMap (claimRuleAdd (lightPath oldId) (lightPath newId) B) with hfmB
  have hpc : processRuleItems (lightPath oldId) (lightPath newId) A = (A ++ fmA, !fmA.isEmpty) := by
    rw [processRuleItems, processRuleItemsAux_eq]
    simp [hfmA]
  have hpa : processRuleItems (lightPath oldId) (lightPath newId) B = (B ++ fmB, !fmB.isEmpty) := by
    rw [processRuleItems, processRuleItemsAux_eq]
    simp [hfmB]
  unfold ruleUpdate at h
  rw [← hA, ← hB, hpc, hpa] at h
  simp only at h
  by_cases hf : (!fmA.isEmpty || !fmB.isEmpty) = true
  case neg => rw [if_neg hf] at h; exact absurd h (by simp)
  case pos =>
  rw [if_pos hf] at h
  by_cases h1 : (A ++ fmA).isEmpty = true
  · by_cases h2 : (B ++ fmB).isEmpty = true
    · rw [if_pos h1, if_pos h2] at h
      simp at h
    · rw [if_pos h1, if_neg h2] at h
      simp only [Option.isNone_none, Option.isNone_some, Bool.and_false, Bool.true_and] at h
      rw [if_neg (by simp)] at h
      replace h := (Option.some.injEq _ _).mp h
      subst h
      refine ⟨?_, ?_⟩
      · intro l hl
        exact absurd hl (by simp)
      · intro l hl
        simp only [Option.some.injEq] at hl
        exact hl.symm
  · by_cases h2 : (B ++ fmB).isEmpty = true
    · rw [if_neg h1, if_pos h2] at h
      simp only [Option.isNone_none, Option.isNone_some, Bool.false_and, Bool.and_true] at h
      rw [if_neg (by simp)] at h
      replace h := (Option.some.injEq _ _).mp h
      subst h
      refine ⟨?_, ?_⟩
      · intro l hl
        simp only [Option.some.injEq] at hl
        exact hl.symm
      · intro l hl
        exact absurd hl (by simp)
    · rw [if_neg h1, if_neg h2] at h
      simp only [Option.isNone_none, Option.isNone_some, Bool.false_and, Bool.and_false] at h
      rw [if_neg (by simp)] at h
      replace h := (Option.some.injEq _ _).mp h
      subst h
      refine ⟨?_, ?_⟩
      · intro l hl
        simp only [Option.some.injEq] at hl
        exact hl.symm
      · intro l hl
        simp only [Option.some.injEq] at hl
        exact hl.symm

/-- Witness for `rule_update_frame`: the concrete payload for `frameRule`
is its original conditions followed by the one created item. -/
theorem rule_update_frame_witness :
    ruleUpdate "1" "2" frameRule = some framePayload ∧
    [JVal.obj [("address", .str "/lights/1/state/on"),
       ("operator", .str "eq"), ("value", .str "true")],
     JVal.obj [("address", .str "/lights/2/state/on"),
       ("operator", .str "eq"), ("value", .str "true")]] =
      frameRule.conditions.getD [] ++ (frameRule.conditions.getD []).filterMap
        (claimRuleAdd (lightPath "1") (lightPath "2") (frameRule.conditions.getD [])) :=
  ⟨by decide,
   (rule_update_frame "1" "2" frameRule framePayload (by decide)).1
     [JVal.obj [("address", .str "/lights/1/state/on"),
        ("operator", .str "eq"), ("value", .str "true")],
      JVal.obj [("address", .str "/lights/2/state/on"),
        ("operator", .str "eq"), ("value", .str "true")]] (by decide)⟩

/-- The group update of orchestration steps 1-2 (app.js lines 539-573): a
group is selected when its lights list contains the old id (line 545); when
processed, if the (re-fetched, assumed stable) list does not already
contain the new id, the persisted list is the old list with the new id
appended (lines 559-564); otherwise no mutating call is issued (line 567).
`none` models "no PUT issued". -/
def groupUpdate (oldId newId : String) (lights : List String) : Option (List String) :=
  if lights.contains oldId then
    if lights.contains newId then none
    else some (lights ++ [newId])
  else none

/-- The scene flat-light-list rewrite (app.js lines 620-634): the list is
rewritten to `lights ++ [newId]` exactly when it contains the old id and
not the new one. -/
def sceneLightsUpdate (oldId newId : String) (lights : List String) : Option (List String) :=
  if lights.contains oldId && !(lights.contains newId) then some (lights ++ [newId]) else none

/-- How many items of a condition/action list carry a given address. -/
def countAddr (items : List JVal) (a : String) : Nat :=
  (items.filter (fun it => itemAddress it == some a)).length

/-- A rule with two conditions sharing the same old-prefixed address
(legitimate in the V1 rule schema: same address, different operators). -/
def dupAddrRule : HueRule :=
  { conditions := some [
      .obj [("address", .str "/lights/1/state/on"), ("operator", .str "eq"),
        ("value", .str "true")],
      .obj [("address", .str "/lights/1/state/on"), ("operator", .str "dx")]],
    actions := none }

/-- If a string starts with a pattern, it is the pattern followed by the
rest. -/
theorem strStartsWith_reconstruct (a p : String) (h : strStartsWith a p = true) :
    p ++ strDrop a p.length = a := by
  unfold strStartsWith at h
  have hpre := List.isPrefixOf_iff_prefix.mp h
  have htake := List.prefix_iff_eq_take.mp hpre
  ext1
  rw [String.data_append]
  show p.data ++ a.data.drop p.length = a.data
  conv_lhs => rw [htake]
  exact List.take_append_drop _ _

/-- Appending to a fixed string on the left is injective. -/
theorem strAppend_left_cancel {p s t : String} (h : p ++ s = p ++ t) : s = t := by
  have hd := congrArg String.data h
  rw [String.data_append, String.data_append] at hd
  ext1
  exact List.append_cancel_left hd

/-- Setting a key makes it readable. -/
theorem jfield_setField (fs : List (String × JVal)) (k : String) (v : JVal) :
    jfield (setField fs k v) k = some v := by
  induction fs with
  | nil => simp [setField, jfield]
  | cons kv fs ih =>
    obtain ⟨k', w⟩ := kv
    by_cases h : k' = k
    · simp [setField, h, jfield]
    · simp [setField, h, jfield, ih]

/-- The item copied with a new address carries exactly that address. -/
theorem itemAddress_setAddress (item : JVal) (a0 a : String) (h : itemAddress item = some a0) :
    itemAddress (setAddress item a) = some a := by
  cases item with
  | obj fs => simp [setAddress, itemAddress, jfield_setField]
  | null => simp [itemAddress] at h
  | bool b => simp [itemAddress] at h
  | num i => simp [itemAddress] at h
  | str t => simp [itemAddress] at h
  | arr l => simp [itemAddress] at h

/-- The address-level view of `claimRuleAdd`. -/
def claimAddAddr (oldPre newPre : String) (orig : List JVal) (a : String) : Option String :=
  if strStartsWith a oldPre && !(itemAddressExists orig (newPre ++ strDrop a oldPre.length)) then
    some (newPre ++ strDrop a oldPre.length)
  else none

/-- The added items' addresses are the `claimAddAddr` images of the
original items' addresses. -/
theorem adds_addrs_eq (oldPre newPre : String) (orig : List JVal) :
    (orig.filterMap (claimRuleAdd oldPre newPre orig)).filterMap itemAddress =
      (orig.filterMap itemAddress).filterMap (claimAddAddr oldPre newPre orig) := by
  rw [List.filterMap_filterMap, List.filterMap_filterMap]
  congr 1
  funext x
  cases ha : itemAddress x with
  | none => simp [claimRuleAdd, ha]
  | some a =>
    by_cases hc : (strStartsWith a oldPre &&
        !(itemAddressExists orig (newPre ++ strDrop a oldPre.length))) = true
    · simp only [claimRuleAdd, ha, hc, if_true, Option.some_bind]
      rw [itemAddress_setAddress x a _ ha]
      unfold claimAddAddr
      rw [if_pos hc]
    · simp only [claimRuleAdd, ha, Option.some_bind]
      rw [if_neg hc]
      unfold claimAddAddr
      rw [if_neg hc]
      rfl

/-- `itemAddressExists` agrees with membership in the address list. -/
theorem itemAddressExists_iff (items : List JVal) (a : String) :
    itemAddressExists items a = true ↔ a ∈ items.filterMap itemAddress := by
  unfold itemAddressExists
  rw [List.any_eq_true, List.mem_filterMap]
  constructor
  · rintro ⟨x, hx, hxa⟩
    exact ⟨x, hx, by simpa using hxa⟩
  · rintro ⟨x, hx, hxa⟩
    exact ⟨x, hx, by simp [hxa]⟩

/-- Part (a) of the amended no-duplicate invariant: when the original
condition/action list has pairwise-distinct addresses, so does the modified
list the rule migrator submits. -/
theorem processRuleItems_addrs_nodup (oldPre newPre : String) (orig : List JVal)
    (h : (orig.filterMap itemAddress).Nodup) :
    (((processRuleItems oldPre newPre orig).1).filterMap itemAddress).Nodup := by
  rw [processRuleItems, processRuleItemsAux_eq]
  simp only [List.nil_append]
  rw [List.filterMap_append]
  refine List.Nodup.append h ?_ ?_
  · rw [adds_addrs_eq]
    refine h.filterMap ?_
    intro a a2 b hb hb2
    unfold claimAddAddr at hb hb2
    by_cases hc : (strStartsWith a oldPre &&
        !(itemAddressExists orig (newPre ++ strDrop a oldPre.length))) = true
    · rw [if_pos hc] at hb
      by_cases hc2 : (strStartsWith a2 oldPre &&
          !(itemAddressExists orig (newPre ++ strDrop a2 oldPre.length))) = true
      · rw [if_pos hc2] at hb2
        have hba : newPre ++ strDrop a oldPre.length = b := by
          simpa using hb
        have hba2 : newPre ++ strDrop a2 oldPre.length = b := by
          simpa using hb2
        have hdrop : strDrop a oldPre.length = strDrop a2 oldPre.length :=
          strAppend_left_cancel (hba.trans hba2.symm)
        have hparts : strStartsWith a oldPre = true ∧
            !(itemAddressExists orig (newPre ++ strDrop a oldPre.length)) = true := by
          simpa using hc
        have hparts2 : strStartsWith a2 oldPre = true ∧
            !(itemAddressExists orig (newPre ++ strDrop a2 oldPre.length)) = true := by
          simpa using hc2
        rw [← strStartsWith_reconstruct a oldPre hparts.1,
          ← strStartsWith_reconstruct a2 oldPre hparts2.1, hdrop]
      · rw [if_neg hc2] at hb2
        exact absurd hb2 (by simp)
    · rw [if_neg hc] at hb
      exact absurd hb (by simp)
  · intro b hb1 hb2
    rw [adds_addrs_eq] at hb2
    obtain ⟨a, ha, hba⟩ := List.mem_filterMap.mp hb2
    unfold claimAddAddr at hba
    by_cases hc : (strStartsWith a oldPre &&
        !(itemAddressExists orig (newPre ++ strDrop a oldPre.length))) = true
    · rw [if_pos hc] at hba
      have hbeq : newPre ++ strDrop a oldPre.length = b := by simpa using hba
      have hparts : strStartsWith a oldPre = true ∧
          !(itemAddressExists orig (newPre ++ strDrop a oldPre.length)) = true := by
        simpa using hc
      have hne := hparts.2
      rw [hbeq] at hne
      rw [Bool.not_eq_true'] at hne
      rw [← itemAddressExists_iff] at hb1
      rw [hb1] at hne
      simp at hne
    · rw [if_neg hc] at hba
      exact absurd hba (by simp)

/-- Part (b) of the amended invariant: a sequence already holding an
element matching the new reference gets no append — the scan maps the
elements and preserves both the length and the number of elements matching
the new reference. -/
theorem scan_no_second_ref (o n : String) (l : List JVal)
    (h : l.any (isLightRef (some n)) = true) :
    (addLightReference (some o) (some n) (.arr l)).1 =
      .arr (l.map (scanStep (some o) (some n))) ∧
    (l.map (scanStep (some o) (some n))).countP (isLightRef (some n)) =
      l.countP (isLightRef (some n)) ∧
    (l.map (scanStep (some o) (some n))).length = l.length := by
  refine ⟨?_, ?_, by simp⟩
  · simp only [addLightReference, scanArray_eq]
    simp [h]
  · rw [List.countP_map]
    congr 1
    funext x
    exact isLightRef_scanStep (some n) (some o) (some n) x

/-- Claim C4 is false as stated: the rule `dupAddrRule` has two conditions
with the same old address (different operators); both map to the same new
address, both dedup checks run against the original list (which holds no
item with the new address), so both are appended — the submitted conditions
array holds two items with an address the original rule did not contain at
all. -/
theorem no_duplicate_reference_cex :
    ruleUpdate "1" "2" dupAddrRule = some
      { conditions := some [
          .obj [("address", .str "/lights/1/state/on"), ("operator", .str "eq"),
            ("value", .str "true")],
          .obj [("address", .str "/lights/1/state/on"), ("operator", .str "dx")],
          .obj [("address", .str "/lights/2/state/on"), ("operator", .str "eq"),
            ("value", .str "true")],
          .obj [("address", .str "/lights/2/state/on"), ("operator", .str "dx")]],
        actions := none } ∧
    countAddr [
        .obj [("address", .str "/lights/1/state/on"), ("operator", .str "eq"),
          ("value", .str "true")],
        .obj [("address", .str "/lights/1/state/on"), ("operator", .str "dx")],
        .obj [("address", .str "/lights/2/state/on"), ("operator", .str "eq"),
          ("value", .str "true")],
        .obj [("address", .str "/lights/2/state/on"), ("operator", .str "dx")]]
      "/lights/2/state/on" = 2 ∧
    countAddr (dupAddrRule.conditions.getD []) "/lights/2/state/on" = 0 := by
  refine ⟨?_, by decide, by decide⟩
  decide

/-- Claim C4, amended: the migration introduces no duplicate reference
provided each rule's original condition/action list has pairwise-distinct
addresses (without that proviso two old-prefixed items with one address
yield two new-address items, as the counterexample shows). (a) Rules: a
nodup-address original list yields a nodup-address submitted list. (b)
Scanner: a sequence already holding an element matching the new reference
receives no append — the element count and the number of new-matching
elements are unchanged. (c) Groups and (d) scene light lists: an update is
issued only when the new id is absent, and the persisted list then holds it
exactly once. -/
theorem no_duplicate_reference_amended :
    (∀ (oldPre newPre : String) (orig : List JVal),
      (orig.filterMap itemAddress).Nodup →
      (((processRuleItems oldPre newPre orig).1).filterMap itemAddress).Nodup) ∧
    (∀ (o n : String) (l : List JVal), l.any (isLightRef (some n)) = true →
      (addLightReference (some o) (some n) (.arr l)).1 =
        .arr (l.map (scanStep (some o) (some n))) ∧
      (l.map (scanStep (some o) (some n))).countP (isLightRef (some n)) =
        l.countP (isLightRef (some n)) ∧
      (l.map (scanStep (some o) (some n))).length = l.length) ∧
    (∀ (oldId newId : String) (lights l2 : List String),
      groupUpdate oldId newId lights = some l2 →
      l2 = lights ++ [newId] ∧ lights.contains newId = false ∧ l2.count newId = 1) ∧
    (∀ (oldId newId : String) (lights l2 : List String),
      sceneLightsUpdate oldId newId lights = some l2 →
      l2 = lights ++ [newId] ∧ lights.contains newId = false ∧ l2.count newId = 1) := by
  refine ⟨processRuleItems_addrs_nodup, scan_no_second_ref, ?_, ?_⟩
  · intro oldId newId lights l2 h
    unfold groupUpdate at h
    by_cases h1 : lights.contains oldId = true
    · rw [if_pos h1] at h
      by_cases h2 : lights.contains newId = true
      · rw [if_pos h2] at h
        exact absurd h (by simp)
      · rw [if_neg h2] at h
        have h2f : lights.contains newId = false := Bool.eq_false_iff.mpr h2
        have hl2 : l2 = lights ++ [newId] := by simpa using h.symm
        refine ⟨hl2, h2f, ?_⟩
        rw [hl2]
        have hnm : newId ∉ lights := by simpa using h2f
        simp [List.count_eq_zero.mpr hnm]
    · rw [if_neg h1] at h
      exact absurd h (by simp)
  · intro oldId newId lights l2 h
    unfold sceneLightsUpdate at h
    by_cases h1 : (lights.contains oldId && !(lights.contains newId)) = true
    · rw [if_pos h1] at h
      have hl2 : l2 = lights ++ [newId] := by simpa using h.symm
      have h2f : lights.contains newId = false := by
        cases hx : lights.contains newId
        · rfl
        · rw [hx] at h1; simp at h1
      refine ⟨hl2, h2f, ?_⟩
      rw [hl2]
      have hnm : newId ∉ lights := by simpa using h2f
      simp [List.count_eq_zero.mpr hnm]
    · rw [if_neg h1] at h
      exact absurd h (by simp)

/-- Witness for `no_duplicate_reference_amended`, each part at concrete
inputs. -/
theorem no_duplicate_reference_amended_witness :
    (([JVal.obj [("address", .str "/lights/1/state/on")]].filterMap itemAddress).Nodup ∧
     (((processRuleItems (lightPath "1") (lightPath "2")
        [JVal.obj [("address", .str "/lights/1/state/on")]]).1).filterMap itemAddress).Nodup) ∧
    (([JVal.obj [("rid", .str "B"), ("rtype", .str "light")]].any (isLightRef (some "B")) = true) ∧
     (addLightReference (some "A") (some "B")
        (.arr [JVal.obj [("rid", .str "B"), ("rtype", .str "light")]])).1 =
       .arr ([JVal.obj [("rid", .str "B"), ("rtype", .str "light")]].map
         (scanStep (some "A") (some "B")))) ∧
    (groupUpdate "5" "7" ["5", "9"] = some ["5", "9", "7"] ∧
     (["5", "9", "7"] : List String) = ["5", "9"] ++ ["7"] ∧
     (["5", "9"] : List String).contains "7" = false ∧
     (["5", "9", "7"] : List String).count "7" = 1) ∧
    (sceneLightsUpdate "5" "7" ["5"] = some ["5", "7"] ∧
     (["5", "7"] : List String).count "7" = 1) := by
  refine ⟨⟨by decide, ?_⟩, ⟨by decide, ?_⟩, ⟨by decide, ?_, ?_, ?_⟩, by decide, ?_⟩
  · exact no_duplicate_reference_amended.1 (lightPath "1") (lightPath "2")
      [JVal.obj [("address", .str "/lights/1/state/on")]] (by decide)
  · exact (no_duplicate_reference_amended.2.1 "A" "B"
      [JVal.obj [("rid", .str "B"), ("rtype", .str "light")]] (by decide)).1
  · exact (no_duplicate_reference_amended.2.2.1 "5" "7" ["5", "9"] ["5", "9", "7"]
      (by decide)).1
  · exact (no_duplicate_reference_amended.2.2.1 "5" "7" ["5", "9"] ["5", "9", "7"]
      (by decide)).2.1
  · exact (no_duplicate_reference_amended.2.2.1 "5" "7" ["5", "9"] ["5", "9", "7"]
      (by decide)).2.2
  · exact (no_duplicate_reference_amended.2.2.2 "5" "7" ["5"] ["5", "7"] (by decide)).2.2

/-- A modern-API light resource: its GUID `id` and the optional legacy
back-reference `id_v1` (a path such as `/lights/32`). -/
structure V2Light where
  id : String
  id_v1 : Option String

/-- The back-reference match `id_v1.match(/\\/lights\\/(\\d+)$/)` of app.js
lines 313-315: the capture is the maximal digit suffix of the path (the
character before it in any match is `/`, not a digit, so the greedy `\\d+`
anchored at the end captures exactly the maximal digit suffix), nonempty,
and the part of the path before it must end in `/lights/`. -/
def extractV1Num (s : String) : Option String :=
  let ds := (s.data.reverse.takeWhile Char.isDigit).reverse
  if ds.isEmpty then none
  else if "/lights/".data.isSuffixOf (s.data.take (s.data.length - ds.length)) then
    some (String.mk ds)
  else none

/-- JavaScript property assignment `m[k] = v` on a plain object: an
existing key keeps its position and gets the new value, a new key is
appended. -/
def insertReplace : List (String × String) → String → String → List (String × String)
  | [], k, v => [(k, v)]
  | (k', v') :: rest, k, v =>
      if k' = k then (k, v) :: rest else (k', v') :: insertReplace rest k v

/-- Key lookup in the association-list model of a JavaScript object. -/
def mapLookup : List (String × String) → String → Option String
  | [], _ => none
  | (k', v) :: rest, k => if k' = k then some v else mapLookup rest k

/-- The `v1ToV2IdMap` construction of app.js lines 306-320: for each V2
light resource carrying an `id_v1` whose path matches the pattern, record
`numericId -> GUID`.  A falsy (`undefined` or empty) `id_v1` is skipped;
an empty string has no digit suffix, so the truthiness test and the match
test agree on it. -/
def buildIdMap (lights : List V2Light) : List (String × String) :=
  lights.foldl (fun m light =>
    match light.id_v1 with
    | some s =>
      match extractV1Num s with
      | some v1 => insertReplace m v1 light.id
      | none => m
    | none => m) []

/-- What one V2 light contributes to the map entry of legacy id `k`. -/
def idContribution (k : String) (light : V2Light) : Option String :=
  match light.id_v1 with
  | some s =>
    match extractV1Num s with
    | some v1 => if v1 = k then some light.id else none
    | none => none
  | none => none

mutual

/-- `JSON.stringify` over the value model (app.js line 781 uses it only as
a cheap substring pre-filter).  String escaping is omitted: the GUIDs and
configuration payloads the pre-filter inspects contain no characters that
`JSON.stringify` would escape. -/
def jsonStringify : JVal → String
  | .null => "null"
  | .bool true => "true"
  | .bool false => "false"
  | .num i => toString i
  | .str t => "\"" ++ t ++ "\""
  | .arr l => "[" ++ jsonStringifyList l ++ "]"
  | .obj fs => "\x7b" ++ jsonStringifyFields fs ++ "\x7d"

/-- Comma-separated rendering of array elements. -/
def jsonStringifyList : List JVal → String
  | [] => ""
  | [x] => jsonStringify x
  | x :: y :: rest => jsonStringify x ++ "," ++ jsonStringifyList (y :: rest)

/-- Comma-separated rendering of object members. -/
def jsonStringifyFields : List (String × JVal) → String
  | [] => ""
  | [(k, v)] => "\"" ++ k ++ "\":" ++ jsonStringify v
  | (k, v) :: g :: rest =>
      "\"" ++ k ++ "\":" ++ jsonStringify v ++ "," ++ jsonStringifyFields (g :: rest)

end

/-- JavaScript `s.includes(pat)`: some position of `s` starts the
pattern. -/
def strContainsSub (s pat : String) : Bool :=
  (List.range (s.data.length + 1)).any (fun i => pat.data.isPrefixOf (s.data.drop i))

/-- How `configString.includes(oldLightV2Id)` reads its argument: a string
stays itself, `undefined` is coerced to the string "undefined". -/
def jsArgString (o : Option String) : String :=
  match o with
  | some s => s
  | none => "undefined"

/-- A V2 behavior instance as fetched: its id and its configuration
(`none` models a missing or null field, which the loop skips at app.js
line 777). -/
structure BehaviorInstance where
  id : Option String
  configuration : Option JVal

/-- The per-instance body of the behavior-instance loop, app.js lines
776-822: skip instances without id or configuration; stringify the
configuration and look for the old V2 id as a substring (with `undefined`
coerced to "undefined" when the id lookup failed, since the guards at
lines 480 and 486 are commented out); on a hit, re-fetch the detail
(modelled as returning the same configuration), deep-copy it, run
`addLightReference`, and submit the modified configuration exactly when the
scanner reports a modification.  `some cfg` models the `PUT` of
`{configuration: cfg}`. -/
def behaviorInstanceUpdate (oldV2 newV2 : Option String) (inst : BehaviorInstance) :
    Option JVal :=
  match inst.id, inst.configuration with
  | some _, some cfg =>
    if strContainsSub (jsonStringify cfg) (jsArgString oldV2) then
      let r := addLightReference oldV2 newV2 cfg
      if r.2 then some r.1 else none
    else none
  | _, _ => none

mutual

/-- Whether a value contains, anywhere, an object that matches the light
reference shape with no `rid` (a reference built from an absent
identifier). -/
def hasRidlessRef : JVal → Bool
  | .arr l => hasRidlessRefList l
  | .obj fs => isLightRef none (.obj fs) || hasRidlessRefFields fs
  | _ => false

/-- `hasRidlessRef` over array elements. -/
def hasRidlessRefList : List JVal → Bool
  | [] => false
  | x :: xs => hasRidlessRef x || hasRidlessRefList xs

/-- `hasRidlessRef` over object member values. -/
def hasRidlessRefFields : List (String × JVal) → Bool
  | [] => false
  | (_, v) :: fs => hasRidlessRef v || hasRidlessRefFields fs

end

/-- The rename decision of app.js lines 518-535 together with the guard of
line 827: the two target names are derived from the old bulb's original
name only; the old bulb's rename is issued exactly when its target differs
from the original name, while the new bulb's rename is always issued
(lines 859-869). -/
structure RenameDecision where
  oldTarget : String
  newTarget : String
  oldRenameIssued : Bool
  newRenameIssued : Bool
deriving DecidableEq

/-- Compute the rename decision from the mode checkbox and the old bulb's
original name. -/
def renameDecision (useAltRename : Bool) (originalOldLightName : String) : RenameDecision :=
  let oldT := if useAltRename then originalOldLightName else originalOldLightName ++ " (old)"
  let newT := if useAltRename then originalOldLightName ++ " (new)" else originalOldLightName
  { oldTarget := oldT, newTarget := newT,
    oldRenameIssued := oldT != originalOldLightName,
    newRenameIssued := true }

/-- A V1 scene as fetched: its flat light list (possibly absent) and its
per-light state map. -/
structure V1Scene where
  lights : Option (List String)
  lightstates : List (String × JVal)

/-- JavaScript truthiness of a JSON value. -/
def jsTruthy : JVal → Bool
  | .null => false
  | .bool b => b
  | .num i => i != 0
  | .str t => t != ""
  | .arr _ => true
  | .obj _ => true

/-- The scene classification of app.js lines 586-590: a scene involves the
old light when its flat light list contains the old id or
`scene.lightstates[oldId]` is truthy (for bridge data the states are
non-null objects, hence truthy whenever present). -/
def sceneInvolvesOld (oldId : String) (sc : V1Scene) : Bool :=
  (sc.lights.getD []).contains oldId ||
    (match jfield sc.lightstates oldId with
     | some v => jsTruthy v
     | none => false)

/-- The scene discovery pass of app.js lines 580-597: every scene is
fetched in turn; a fetch failure (`Except.error`) is logged and skipped
without aborting the loop; a fetched scene is collected exactly when the
classification holds.  The collected list is built in full before any
scene mutation is issued (the mutation pass at lines 601-644 consumes this
list). -/
def discoverScenes (oldId : String) :
    List (String × Except String V1Scene) → List (String × V1Scene)
  | [] => []
  | (_, .error _) :: rest => discoverScenes oldId rest
  | (sid, .ok sc) :: rest =>
      if sceneInvolvesOld oldId sc then (sid, sc) :: discoverScenes oldId rest
      else discoverScenes oldId rest

/-- Lookup after `insertReplace`: the inserted key reads the new value,
every other key is unaffected. -/
theorem mapLookup_insertReplace (m : List (String × String)) (k v k2 : String) :
    mapLookup (insertReplace m k v) k2 = if k = k2 then some v else mapLookup m k2 := by
  induction m with
  | nil => by_cases h : k = k2 <;> simp [insertReplace, mapLookup, h]
  | cons kv rest ih =>
    obtain ⟨k', v'⟩ := kv
    by_cases h1 : k' = k
    · subst h1
      by_cases h2 : k' = k2 <;> simp [insertReplace, mapLookup, h2]
    · by_cases h2 : k' = k2
      · subst h2
        have hk : ¬(k = k') := fun h => h1 h.symm
        simp [insertReplace, h1, mapLookup, hk]
      · simp [insertReplace, h1, mapLookup, h2, ih]

/-- Lookup of a key after folding the map construction over a light list:
the last contributing light wins; with no contribution the lookup falls
back to the accumulator. -/
theorem buildIdMap_fold_lookup (k : String) :
    ∀ (lights : List V2Light) (m : List (String × String)),
    mapLookup (lights.foldl (fun m light =>
      match light.id_v1 with
      | some s =>
        match extractV1Num s with
        | some v1 => insertReplace m v1 light.id
        | none => m
      | none => m) m) k =
      match (lights.filterMap (idContribution k)).getLast? with
      | some v => some v
      | none => mapLookup m k := by
  intro lights
  induction lights with
  | nil => intro m; rfl
  | cons light rest ih =>
    intro m
    rw [List.foldl_cons, ih]
    cases hid : light.id_v1 with
    | none =>
      have hcontrib : idContribution k light = none := by simp [idContribution, hid]
      simp only [List.filterMap_cons, hcontrib, hid]
    | some s =>
      cases hex : extractV1Num s with
      | none =>
        have hcontrib : idContribution k light = none := by simp [idContribution, hid, hex]
        simp only [List.filterMap_cons, hcontrib, hid, hex]
      | some v1 =>
        by_cases hvk : v1 = k
        · have hcontrib : idContribution k light = some light.id := by
            simp [idContribution, hid, hex, hvk]
          simp only [List.filterMap_cons, hcontrib, hid, hex]
          cases hlast : (rest.filterMap (idContribution k)).getLast? with
          | some w => simp [hlast, List.getLast?_cons]
          | none => simp [hlast, List.getLast?_cons, mapLookup_insertReplace, hvk]
        · have hcontrib : idContribution k light = none := by
            simp [idContribution, hid, hex, hvk]
          simp only [List.filterMap_cons, hcontrib, hid, hex]
          cases hlast : (rest.filterMap (idContribution k)).getLast? with
          | some w => simp [hlast]
          | none => simp [hlast, mapLookup_insertReplace, hvk]

/-- The map lookup is exactly the last contribution among the V2 lights. -/
theorem buildIdMap_lookup (lights : List V2Light) (k : String) :
    mapLookup (buildIdMap lights) k = (lights.filterMap (idContribution k)).getLast? := by
  rw [buildIdMap, buildIdMap_fold_lookup]
  cases (lights.filterMap (idContribution k)).getLast? <;> rfl

/-- The back-reference extraction returns `some d` exactly when the path
is some prefix followed by `/lights/` followed by the nonempty all-digit
`d` at the very end. -/
theorem extractV1Num_iff (s d : String) :
    extractV1Num s = some d ↔
      d.data ≠ [] ∧ d.data.all Char.isDigit = true ∧
        ∃ pre : String, s = pre ++ "/lights/" ++ d := by
  constructor
  · intro h
    unfold extractV1Num at h
    by_cases h1 : ((s.data.reverse.takeWhile Char.isDigit).reverse.isEmpty) = true
    · rw [if_pos h1] at h
      exact absurd h (by simp)
    · rw [if_neg h1] at h
      by_cases h2 : ("/lights/".data.isSuffixOf
          (s.data.take (s.data.length -
            (s.data.reverse.takeWhile Char.isDigit).reverse.length))) = true
      · rw [if_pos h2] at h
        have hd : d = String.mk (s.data.reverse.takeWhile Char.isDigit).reverse := by
          simpa using h.symm
        have hds : d.data = (s.data.reverse.takeWhile Char.isDigit).reverse := by
          rw [hd]
        refine ⟨?_, ?_, ?_⟩
        · rw [hds]
          intro hnil
          rw [hnil] at h1
          exact h1 (by simp)
        · rw [List.all_eq_true]
          intro x hx
          rw [hds, List.mem_reverse] at hx
          exact List.mem_takeWhile_imp hx
        · have hsuf : d.data <:+ s.data := by
            have h4 : (s.data.reverse.takeWhile Char.isDigit).reverse <:+
                (s.data.reverse).reverse :=
              List.reverse_suffix.mpr (List.takeWhile_prefix _)
            rw [List.reverse_reverse] at h4
            rw [hds]
            exact h4
          obtain ⟨t, ht⟩ := hsuf
          have h3 := congrArg List.length ht
          rw [List.length_append] at h3
          have htake : s.data.take (s.data.length - d.data.length) = t := by
            have hlen : t.length = s.data.length - d.data.length := by omega
            rw [← hlen, ← ht, List.take_left]
          rw [hds] at htake
          rw [htake] at h2
          obtain ⟨p0, hp0⟩ := (List.isSuffixOf_iff_suffix).mp h2
          refine ⟨String.mk p0, ?_⟩
          ext1
          rw [String.data_append, String.data_append]
          show s.data = p0 ++ "/lights/".data ++ d.data
          rw [← ht, ← hp0]
      · rw [if_neg h2] at h
        exact absurd h (by simp)
  · rintro ⟨hne, hdig, pre, hpre⟩
    have hsdata : s.data = pre.data ++ "/lights/".data ++ d.data := by
      rw [hpre, String.data_append, String.data_append]
    have hrev : s.data.reverse =
        d.data.reverse ++ ("/lights/".data.reverse ++ pre.data.reverse) := by
      rw [hsdata]
      simp [List.reverse_append]
    have hall : ∀ x ∈ d.data.reverse, Char.isDigit x = true := by
      intro x hx
      exact List.all_eq_true.mp hdig x (List.mem_reverse.mp hx)
    have happ : ∀ (l1 l2 : List Char), (∀ x ∈ l1, Char.isDigit x = true) →
        (l1 ++ l2).takeWhile Char.isDigit = l1 ++ l2.takeWhile Char.isDigit := by
      intro l1
      induction l1 with
      | nil => intro l2 _; simp
      | cons a t iht =>
        intro l2 hl
        simp [List.takeWhile_cons, hl a (by simp),
          iht l2 (fun x hx => hl x (by simp [hx]))]
    have hnil : ("/lights/".data.reverse ++ pre.data.reverse).takeWhile Char.isDigit = [] := by
      rw [show ("/lights/".data.reverse) = '/' :: ['s', 't', 'h', 'g', 'i', 'l', '/'] from rfl,
        List.cons_append]
      exact List.takeWhile_cons_of_neg (by decide)
    have htw : s.data.reverse.takeWhile Char.isDigit = d.data.reverse := by
      rw [hrev, happ _ _ hall, hnil, List.append_nil]
    have hemp : d.data.isEmpty = false := by
      cases hc : d.data with
      | nil => exact absurd hc hne
      | cons a t => rfl
    have htk : s.data.take (s.data.length - d.data.length) =
        pre.data ++ "/lights/".data := by
      have hlen2 : s.data.length - d.data.length = (pre.data ++ "/lights/".data).length := by
        rw [hsdata]
        simp only [List.length_append]
        omega
      rw [hlen2, hsdata, List.take_left]
    unfold extractV1Num
    rw [htw, List.reverse_reverse]
    rw [if_neg (by rw [hemp]; simp)]
    rw [htk]
    rw [if_pos (List.isSuffixOf_iff_suffix.mpr ⟨pre.data, rfl⟩)]


/-- Claim C5: the identifier map contains `legacyId -> modernGuid` exactly
for the modern light resources whose back-reference matches the
`/lights/{numericId}` pattern: (1) a lookup returns the last matching
light's GUID (so, when back-references are unique, that light's GUID);
(2) a key is present exactly when some light contributes it — lights in
only one collection, or with a non-matching back-reference, are simply
absent (an absent key is `none` structurally, never a null value);
(3) a light contributes the entry for `k` exactly when its back-reference
extracts to `k` and the value is its GUID; (4) the extraction succeeds with
`d` exactly when the path is some prefix, then `/lights/`, then the
nonempty all-digit `d` at the end.  The construction is a pure fold over
the input collections. -/
theorem identifier_map_correct :
    (∀ (lights : List V2Light) (k : String),
      mapLookup (buildIdMap lights) k = (lights.filterMap (idContribution k)).getLast?) ∧
    (∀ (lights : List V2Light) (k : String),
      (mapLookup (buildIdMap lights) k).isSome =
        lights.any (fun light => (idContribution k light).isSome)) ∧
    (∀ (light : V2Light) (k : String) (g : String),
      idContribution k light = some g ↔
        ((∃ s, light.id_v1 = some s ∧ extractV1Num s = some k) ∧ g = light.id)) ∧
    (∀ s dd, extractV1Num s = some dd ↔
      dd.data ≠ [] ∧ dd.data.all Char.isDigit = true ∧
        ∃ pre, s = pre ++ "/lights/" ++ dd) := by
  have hiff : ∀ (lights : List V2Light) (k : String),
      lights.filterMap (idContribution k) = [] ↔
        lights.any (fun light => (idContribution k light).isSome) = false := by
    intro lights k
    rw [List.filterMap_eq_nil_iff, List.any_eq_false]
    constructor
    · intro hf x hx
      simp [hf x hx]
    · intro hf x hx
      have h2 := hf x hx
      cases hgx : idContribution k x with
      | none => rfl
      | some g => rw [hgx] at h2; simp at h2
  refine ⟨buildIdMap_lookup, ?_, ?_, extractV1Num_iff⟩
  · intro lights k
    rw [buildIdMap_lookup]
    cases hany : lights.any (fun light => (idContribution k light).isSome) with
    | false =>
      rw [(hiff lights k).mpr hany]
      rfl
    | true =>
      have h0 : lights.filterMap (idContribution k) ≠ [] := by
        intro hh
        rw [(hiff lights k).mp hh] at hany
        exact Bool.false_ne_true hany
      exact List.getLast?_isSome.mpr h0
  · intro light k g
    constructor
    · intro h
      cases hid : light.id_v1 with
      | none => simp [idContribution, hid] at h
      | some s =>
        cases hex : extractV1Num s with
        | none => simp [idContribution, hid, hex] at h
        | some v1 =>
          simp only [idContribution, hid, hex] at h
          by_cases hvk : v1 = k
          · rw [if_pos hvk] at h
            refine ⟨⟨s, rfl, by rw [hex, hvk]⟩, by simpa using h.symm⟩
          · rw [if_neg hvk] at h
            exact absurd h (by simp)
    · rintro ⟨⟨s, hid, hex⟩, hg⟩
      simp [idContribution, hid, hex, hg]

/-- A behavior instance whose configuration references the old light. -/
def missingGuidInstance : BehaviorInstance :=
  { id := some "inst-1",
    configuration := some (.obj [("where",
      .arr [.obj [("rid", .str "gOLD"), ("rtype", .str "light")]])]) }

/-- Claim C6 is right about the intent but the code violates it: with the
old GUID known and the new GUID absent from the identifier map (`none`,
JavaScript `undefined`), the behavior-instance loop still runs — the
guards at app.js lines 480 and 486 are commented out — matches the old
reference, pushes `{rid: undefined, rtype: 'light'}` (serialized with no
`rid` key) and submits the configuration: the update is attempted and the
submitted configuration contains a light reference with no identifier,
which the input configuration did not. -/
theorem automation_missing_guid_bug :
    behaviorInstanceUpdate (some "gOLD") none missingGuidInstance =
      some (.obj [("where", .arr [.obj [("rid", .str "gOLD"), ("rtype", .str "light")],
        .obj [("rtype", .str "light")]])]) ∧
    hasRidlessRef (.obj [("where", .arr [.obj [("rid", .str "gOLD"), ("rtype", .str "light")],
      .obj [("rtype", .str "light")]])]) = true ∧
    hasRidlessRef (.obj [("where",
      .arr [.obj [("rid", .str "gOLD"), ("rtype", .str "light")]])]) = false := by
  refine ⟨?_, by decide, by decide⟩
  decide

/-- Claim C7: in standard mode the old bulb is renamed to
`{originalName} (old)` and the new bulb to `{originalName}`; in alternate
mode the old bulb keeps its name (no rename is issued for it, since the
target equals the original) and the new bulb is renamed to
`{originalName} (new)`; both targets are derived from the old bulb's
original name only, and the `{"5": "Lamp"}` example behaves as claimed. -/
theorem identity_rename_policy (name : String) :
    renameDecision false name =
      { oldTarget := name ++ " (old)", newTarget := name,
        oldRenameIssued := true, newRenameIssued := true } ∧
    renameDecision true name =
      { oldTarget := name, newTarget := name ++ " (new)",
        oldRenameIssued := false, newRenameIssued := true } ∧
    mapLookup [("5", "Lamp"), ("7", "Lamp2")] "5" = some "Lamp" ∧
    renameDecision false "Lamp" =
      { oldTarget := "Lamp (old)", newTarget := "Lamp",
        oldRenameIssued := true, newRenameIssued := true } := by
  have hbne : ((name ++ " (old)") != name) = true := by
    rw [bne_iff_ne]
    intro heq
    have h2 := congrArg String.length heq
    rw [String.length_append] at h2
    have h3 : (" (old)" : String).length = 6 := rfl
    omega
  refine ⟨?_, ?_, by decide, by decide⟩
  · simp [renameDecision, hbne]
  · simp [renameDecision]

/-- Claim C8: a group whose light list contains the old id and not the new
id is updated to the original list with the new id appended; a group
already containing the new id is skipped (no mutating call); a group not
containing the old id is never touched; and a second run on the updated
list is a no-op. -/
theorem group_migrator_correct (oldId newId : String) (lights : List String) :
    (lights.contains oldId = true → lights.contains newId = false →
      groupUpdate oldId newId lights = some (lights ++ [newId])) ∧
    (lights.contains newId = true → groupUpdate oldId newId lights = none) ∧
    (lights.contains oldId = false → groupUpdate oldId newId lights = none) ∧
    (∀ l2, groupUpdate oldId newId lights = some l2 →
      groupUpdate oldId newId l2 = none) := by
  refine ⟨?_, ?_, ?_, ?_⟩
  · intro h1 h2
    unfold groupUpdate
    rw [if_pos h1, if_neg (by rw [h2]; simp)]
  · intro h2
    unfold groupUpdate
    by_cases h1 : lights.contains oldId = true
    · rw [if_pos h1, if_pos h2]
    · rw [if_neg h1]
  · intro h1
    unfold groupUpdate
    rw [if_neg (by rw [h1]; simp)]
  · intro l2 h
    unfold groupUpdate at h
    by_cases h1 : lights.contains oldId = true
    · rw [if_pos h1] at h
      by_cases h2 : lights.contains newId = true
      · rw [if_pos h2] at h
        exact absurd h (by simp)
      · rw [if_neg h2] at h
        have hl2 : l2 = lights ++ [newId] := by simpa using h.symm
        have hmo : oldId ∈ lights := by simpa using h1
        have hc1 : (lights ++ [newId]).contains oldId = true := by simp [hmo]
        have hc2 : (lights ++ [newId]).contains newId = true := by simp
        rw [hl2]
        unfold groupUpdate
        rw [if_pos hc1, if_pos hc2]
    · rw [if_neg h1] at h
      exact absurd h (by simp)

/-- Witness for `group_migrator_correct`: the spec's `{lights:["5","9"]}`
example with old=5, new=7, and the second run being a no-op. -/
theorem group_migrator_correct_witness :
    ((["5", "9"] : List String).contains "5" = true ∧
     (["5", "9"] : List String).contains "7" = false ∧
     groupUpdate "5" "7" ["5", "9"] = some ["5", "9", "7"]) ∧
    groupUpdate "5" "7" ["5", "9", "7"] = none :=
  ⟨⟨by decide, by decide,
    (group_migrator_correct "5" "7" ["5", "9"]).1 (by decide) (by decide)⟩,
   (group_migrator_correct "5" "7" ["5", "9"]).2.2.2 ["5", "9", "7"] (by decide)⟩

/-- A key readable in a member list is a member. -/
theorem jfield_mem {fs : List (String × JVal)} {k : String} {v : JVal}
    (h : jfield fs k = some v) : (k, v) ∈ fs := by
  induction fs with
  | nil => simp [jfield] at h
  | cons kv rest ih =>
    obtain ⟨k', w⟩ := kv
    rw [jfield] at h
    by_cases hk : k' = k
    · rw [if_pos hk] at h
      have hw : w = v := by simpa using h
      subst hw
      subst hk
      exact List.mem_cons_self _ _
    · rw [if_neg hk] at h
      exact List.mem_cons_of_mem _ (ih h)

/-- The full filterMap view of the scene discovery pass. -/
theorem discoverScenes_eq_filterMap (oldId : String)
    (fetches : List (String × Except String V1Scene)) :
    discoverScenes oldId fetches = fetches.filterMap (fun p =>
      match p.2 with
      | .ok sc => if sceneInvolvesOld oldId sc then some (p.1, sc) else none
      | .error _ => none) := by
  induction fetches with
  | nil => rfl
  | cons p rest ih =>
    obtain ⟨sid, r⟩ := p
    cases r with
    | error e => simp [discoverScenes, List.filterMap_cons, ih]
    | ok sc =>
      by_cases hinv : sceneInvolvesOld oldId sc = true
      · simp [discoverScenes, List.filterMap_cons, hinv, ih]
      · have hinv2 : sceneInvolvesOld oldId sc = false := Bool.eq_false_iff.mpr hinv
        simp [discoverScenes, List.filterMap_cons, hinv2, ih]

/-- Claim C9: the scene discovery pass collects exactly the scenes whose
flat light list contains the old id or whose state map has a (truthy —
always the case for the bridge's non-null state objects) entry for it; a
fetch failure excludes only that scene, leaving the discovery of every
other scene unchanged; and the collected list is complete before the
mutation pass starts, which consumes it as a whole. -/
theorem scene_discovery_two_phase :
    (∀ (oldId : String) (fetches : List (String × Except String V1Scene)),
      discoverScenes oldId fetches = fetches.filterMap (fun p =>
        match p.2 with
        | .ok sc => if sceneInvolvesOld oldId sc then some (p.1, sc) else none
        | .error _ => none)) ∧
    (∀ (oldId : String) (l1 l2 : List (String × Except String V1Scene))
       (sid : String) (e : String),
      discoverScenes oldId (l1 ++ (sid, Except.error e) :: l2) =
        discoverScenes oldId (l1 ++ l2)) ∧
    (∀ (oldId : String) (sc : V1Scene),
      (∀ kv ∈ sc.lightstates, jsTruthy kv.2 = true) →
      (sceneInvolvesOld oldId sc = true ↔
        oldId ∈ sc.lights.getD [] ∨ (jfield sc.lightstates oldId).isSome = true)) := by
  refine ⟨discoverScenes_eq_filterMap, ?_, ?_⟩
  · intro oldId l1 l2 sid e
    rw [discoverScenes_eq_filterMap, discoverScenes_eq_filterMap,
      List.filterMap_append, List.filterMap_append, List.filterMap_cons]
  · intro oldId sc h
    unfold sceneInvolvesOld
    cases hj : jfield sc.lightstates oldId with
    | none => simp [hj]
    | some v =>
      have hv : jsTruthy v = true := h _ (jfield_mem hj)
      simp [hj, hv]

/-- A scene involving the old light only through its state map. -/
def sampleScene : V1Scene :=
  { lights := some ["7"], lightstates := [("5", .obj [("on", .bool true)])] }

/-- Witness for `scene_discovery_two_phase`: the classification iff at a
concrete scene whose states are truthy. -/
theorem scene_discovery_two_phase_witness :
    (∀ kv ∈ sampleScene.lightstates, jsTruthy kv.2 = true) ∧
    (sceneInvolvesOld "5" sampleScene = true ↔
      "5" ∈ sampleScene.lights.getD [] ∨
        (jfield sampleScene.lightstates "5").isSome = true) :=
  ⟨by decide, scene_discovery_two_phase.2.2 "5" sampleScene (by decide)⟩

end HueTool
